import Mathlib

/-!
# Study-buddy matchmaking: a shallow embedding of `functions/index.js`

The development follows `exports.findStudyBuddyMatches` step by step:
candidate gathering from the users collection, prompt rendering, the
normalisation of the model reply, and the chain
`filter → map → filter → sort → slice` that turns the parsed reply into the
returned `matches` list. It then follows `exports.getConversationStarters`:
the two profile reads, the prompt, the same normalisation, and the fallback
list of the parse `catch`.

Modelling choices.

* A number is a double, held exactly: a rational, `Infinity`, `-Infinity` or
  `NaN`. The code only compares numbers, takes `Math.min` / `Math.max` and
  looks at the sign of a difference, all of which are exact on doubles.
* The reply is untrusted: a property of a reply entry holds any JSON value or
  is absent, and an element of `matches` may be `null`. Arrays and objects are
  held by the string that their conversion to a primitive yields, which is all
  the code can observe of them.
* Two conversions of the language are parameters, gathered in `Runtime`: the
  conversion of a string to a number, and the table of the properties that an
  array inherits from its prototypes.
* `JSON.parse`, the Gemini client and the Firestore reads are library code and
  enter as parameters.
* A string is a list of Unicode characters; the patterns of the two
  replacements are ASCII, so matching by character agrees with matching by
  UTF-16 code unit.
* `Array.prototype.sort` is stable (ECMAScript 2019); for a comparator that is
  a consistent ordering its result is the one a stable insertion sort yields.
-/

namespace StudyBuddy

/-! ## Data model -/

/-- Raw fields of a `users` document as `doc.data()` returns them. -/
structure UserData where
  name : Option String
  bio : Option String
  interests : Option (List String)
  imageUrl : Option String
deriving DecidableEq

/-- One document of the `users` collection snapshot. -/
structure Doc where
  id : String
  data : UserData
deriving DecidableEq

/-- Element of the `candidates` array (source lines 47 to 53). -/
structure Candidate where
  id : String
  name : String
  bio : String
  interests : List String
  imageUrl : String
deriving DecidableEq

/-- A JavaScript number. -/
inductive JsNum where
  | nan
  | fin (q : ℚ)
  | posInf
  | negInf
deriving DecidableEq

/-- The value of a property of a reply entry, as `JSON.parse` built it. -/
inductive JsVal where
  /-- The property is absent. -/
  | undefined
  | null
  | bool (b : Bool)
  /-- A finite number. -/
  | num (q : ℚ)
  /-- A number literal beyond the range of a double: `Infinity`, or
  `-Infinity` when `negative`. -/
  | infinity (negative : Bool)
  | str (s : String)
  /-- An array or an object, held by the string that its conversion to a
  primitive yields: the elements joined by commas for an array,
  `[object Object]` for an object. The conversion throws a `TypeError`, here
  `none`, when the object or an element of the array has an own property
  `toString`, which no parsed value can call. -/
  | object (primitive : Option String)
deriving DecidableEq

/-- One element of `matchData.matches` that is not `null`, as the model wrote
it. An element that is a number, a string, a boolean or an array has none of
the three properties and is the record whose three fields are `undefined`. -/
structure MatchCandidate where
  candidateIndex : JsVal
  score : JsVal
  reason : JsVal
  /-- Any other properties of the entry (an echoed name, id, bio). -/
  extras : List (String × JsVal)
deriving DecidableEq

/-- Element of the returned `matches` array (source lines 128 to 136). A
profile field is `none` when the value read for it is `undefined`. -/
structure EnrichedMatch where
  userId : Option String
  name : Option String
  bio : Option String
  interests : Option (List String)
  imageUrl : Option String
  matchScore : JsNum
  matchReason : JsVal
deriving DecidableEq

/-- The conversions of the language that the code relies on and that are
taken as given. -/
structure Runtime where
  /-- The conversion of a string to a number (`StringToNumber`); `NaN` for a
  string that is no numeric literal. -/
  stringToNumber : String → JsNum
  /-- For a property key that is neither an index of the array nor `length`:
  the property of that name which an array inherits from `Array.prototype` or
  `Object.prototype`, held by what `.name` reads on its value (the name of a
  method, `undefined` for the prototype object); `none` when no such property
  exists. Every such value is truthy and has no property `id`, `bio`,
  `interests` or `imageUrl`. -/
  inherited : String → Option (Option String)

/-- What the element access `candidates[key]` can yield besides
`undefined`. -/
inductive Looked where
  /-- An element of the array. -/
  | candidate (c : Candidate)
  /-- The number `candidates.length`. -/
  | length (n : Nat)
  /-- An inherited property, held by what `.name` reads on it. -/
  | inherited (name : Option String)
deriving DecidableEq

/-! ## JavaScript primitives used by the code -/

/-- The expression `s || d` for a string-valued property that may be absent:
the empty string and `undefined` are falsy. -/
def strOr (s : Option String) (d : String) : String :=
  match s with
  | some v => if v = "" then d else v
  | none => d

/-- The expression `s || d` for a string `s`. -/
def orDefault (s : String) (d : String) : String :=
  if s = "" then d else s

/-- The call `items.join(", ")`. -/
def joinComma (items : List String) : String :=
  String.intercalate ", " items

/-- The expression `a || []` for an array-valued property that may be absent
(every array is truthy). -/
def arrOr (a : Option (List String)) : List String :=
  match a with
  | some v => v
  | none => []

/-- Truthiness of a reply value. -/
def JsVal.truthy (v : JsVal) : Bool :=
  match v with
  | JsVal.undefined => false
  | JsVal.null => false
  | JsVal.bool b => b
  | JsVal.num q => decide (q ≠ 0)
  | JsVal.infinity _ => true
  | JsVal.str s => decide (s ≠ "")
  | JsVal.object _ => true

/-- The expression `v || d` for a reply value `v`. -/
def valOr (v d : JsVal) : JsVal :=
  if v.truthy then v else d

/-- `ToNumber` of a reply value; `none` when the conversion of an array or
object to a primitive throws. -/
def toNumber (rt : Runtime) (v : JsVal) : Option JsNum :=
  match v with
  | JsVal.undefined => some JsNum.nan
  | JsVal.null => some (JsNum.fin 0)
  | JsVal.bool b => some (JsNum.fin (if b then 1 else 0))
  | JsVal.num q => some (JsNum.fin q)
  | JsVal.infinity negative => some (if negative then JsNum.negInf else JsNum.posInf)
  | JsVal.str s => some (rt.stringToNumber s)
  | JsVal.object (some s) => some (rt.stringToNumber s)
  | JsVal.object none => none

/-- The comparison `x >= y`; false as soon as an operand is `NaN`. -/
def JsNum.ge (x y : JsNum) : Bool :=
  match x, y with
  | JsNum.nan, _ => false
  | _, JsNum.nan => false
  | JsNum.fin a, JsNum.fin b => decide (b ≤ a)
  | JsNum.posInf, _ => true
  | _, JsNum.negInf => true
  | _, _ => false

/-- The comparison `x > y`; false as soon as an operand is `NaN`. -/
def JsNum.gt (x y : JsNum) : Bool :=
  match x, y with
  | JsNum.nan, _ => false
  | _, JsNum.nan => false
  | JsNum.fin a, JsNum.fin b => decide (b < a)
  | JsNum.posInf, JsNum.posInf => false
  | JsNum.posInf, _ => true
  | JsNum.negInf, _ => false
  | JsNum.fin _, JsNum.negInf => true
  | JsNum.fin _, JsNum.posInf => false

/-- The difference `x - y`. -/
def JsNum.sub (x y : JsNum) : JsNum :=
  match x, y with
  | JsNum.nan, _ => JsNum.nan
  | _, JsNum.nan => JsNum.nan
  | JsNum.fin a, JsNum.fin b => JsNum.fin (a - b)
  | JsNum.posInf, JsNum.posInf => JsNum.nan
  | JsNum.negInf, JsNum.negInf => JsNum.nan
  | JsNum.posInf, _ => JsNum.posInf
  | JsNum.negInf, _ => JsNum.negInf
  | JsNum.fin _, JsNum.posInf => JsNum.negInf
  | JsNum.fin _, JsNum.negInf => JsNum.posInf

/-- `Math.max(x, y)`: `NaN` if an argument is `NaN`. -/
def mathMax (x y : JsNum) : JsNum :=
  match x, y with
  | JsNum.nan, _ => JsNum.nan
  | _, JsNum.nan => JsNum.nan
  | JsNum.fin a, JsNum.fin b => JsNum.fin (max a b)
  | JsNum.posInf, _ => JsNum.posInf
  | _, JsNum.posInf => JsNum.posInf
  | JsNum.negInf, y => y
  | x, JsNum.negInf => x

/-- `Math.min(x, y)`: `NaN` if an argument is `NaN`. -/
def mathMin (x y : JsNum) : JsNum :=
  match x, y with
  | JsNum.nan, _ => JsNum.nan
  | _, JsNum.nan => JsNum.nan
  | JsNum.fin a, JsNum.fin b => JsNum.fin (min a b)
  | JsNum.negInf, _ => JsNum.negInf
  | _, JsNum.negInf => JsNum.negInf
  | JsNum.posInf, y => y
  | x, JsNum.posInf => x

/-- The element access `candidates[i]` for a finite number `i`: the property
key is the decimal string of `i`, which names an element exactly when `i` is a
whole number in `[0, candidates.length)`; otherwise it names no property at
all and the result is `undefined`. -/
def candidateAt (candidates : List Candidate) (i : ℚ) : Option Candidate :=
  if i.den = 1 ∧ 0 ≤ i.num then candidates[i.num.toNat]? else none

/-- The element of the array whose index, written in decimal, is `key`. -/
def elementAtKey (start : Nat) (key : String) : List Candidate → Option Candidate
  | [] => none
  | c :: rest => if toString start = key then some c else elementAtKey (start + 1) key rest

/-- The element access `candidates[key]` for a string key: an element when
`key` is the decimal form of an index, the length for the key `length`,
otherwise what the array inherits under that name; `none` is `undefined`. -/
def lookupKey (rt : Runtime) (candidates : List Candidate) (key : String) : Option Looked :=
  match elementAtKey 0 key candidates with
  | some c => some (Looked.candidate c)
  | none =>
    if key = "length" then some (Looked.length candidates.length)
    else (rt.inherited key).map Looked.inherited

/-- The element access `candidates[match.candidateIndex]`: the index is
converted to a property key first. The outer `none` is the `TypeError` of
that conversion, the inner `none` is `undefined`. -/
def lookupCandidate (rt : Runtime) (candidates : List Candidate) (idx : JsVal) :
    Option (Option Looked) :=
  match idx with
  | JsVal.undefined => some (lookupKey rt candidates "undefined")
  | JsVal.null => some (lookupKey rt candidates "null")
  | JsVal.bool b => some (lookupKey rt candidates (if b then "true" else "false"))
  | JsVal.num i => some ((candidateAt candidates i).map Looked.candidate)
  | JsVal.infinity negative =>
    some (lookupKey rt candidates (if negative then "-Infinity" else "Infinity"))
  | JsVal.str s => some (lookupKey rt candidates s)
  | JsVal.object (some s) => some (lookupKey rt candidates s)
  | JsVal.object none => none

/-- Truthiness of a looked-up value: only the length `0` is falsy. -/
def Looked.truthy (v : Looked) : Bool :=
  match v with
  | Looked.candidate _ => true
  | Looked.length n => decide (n ≠ 0)
  | Looked.inherited _ => true

/-- The read `candidate.id`. -/
def Looked.id (v : Looked) : Option String :=
  match v with
  | Looked.candidate c => some c.id
  | _ => none

/-- The read `candidate.name`. -/
def Looked.name (v : Looked) : Option String :=
  match v with
  | Looked.candidate c => some c.name
  | Looked.length _ => none
  | Looked.inherited name => name

/-- The read `candidate.bio`. -/
def Looked.bio (v : Looked) : Option String :=
  match v with
  | Looked.candidate c => some c.bio
  | _ => none

/-- The read `candidate.interests`. -/
def Looked.interests (v : Looked) : Option (List String) :=
  match v with
  | Looked.candidate c => some c.interests
  | _ => none

/-- The read `candidate.imageUrl`. -/
def Looked.imageUrl (v : Looked) : Option String :=
  match v with
  | Looked.candidate c => some c.imageUrl
  | _ => none

/-! ## Candidate gathering (source lines 43 to 55) -/

/-- Body of the `forEach` callback for a document that is kept. -/
def toCandidate (doc : Doc) : Candidate :=
  { id := doc.id
    name := strOr doc.data.name "Anonymous"
    bio := strOr doc.data.bio ""
    interests := arrOr doc.data.interests
    imageUrl := strOr doc.data.imageUrl "" }

/-- The `candidates` array after the `forEach` over the snapshot. -/
def gatherCandidates (currentUserId : String) : List Doc → List Candidate
  | [] => []
  | doc :: rest =>
    if doc.id ≠ currentUserId then toCandidate doc :: gatherCandidates currentUserId rest
    else gatherCandidates currentUserId rest

/-! ## Reconciliation (source lines 120 to 140) -/

/-- The callback of the first filter, `m.score >= 50 &&
m.candidateIndex !== undefined`, on an element that is not `null`; `none`
when the conversion of the score throws. -/
def keepEntry (rt : Runtime) (m : MatchCandidate) : Option Bool :=
  match toNumber rt m.score with
  | none => none
  | some x => some (x.ge (JsNum.fin 50) && decide (m.candidateIndex ≠ JsVal.undefined))

/-- The first `filter` over the whole array. On a `null` element the read
`m.score` throws a `TypeError`; `none` is a throw. -/
def filterMatches (rt : Runtime) : List (Option MatchCandidate) → Option (List MatchCandidate)
  | [] => some []
  | none :: _ => none
  | some m :: rest =>
    match keepEntry rt m, filterMatches rt rest with
    | some keep, some kept => some (if keep then m :: kept else kept)
    | _, _ => none

/-- The `map` callback. The outer `none` is a throw; the inner `none` is the
`null` it returns when the looked-up value is falsy. -/
def enrich (rt : Runtime) (candidates : List Candidate) (m : MatchCandidate) :
    Option (Option EnrichedMatch) :=
  match lookupCandidate rt candidates m.candidateIndex with
  | none => none
  | some none => some none
  | some (some candidate) =>
    if candidate.truthy then
      match toNumber rt m.score with
      | none => none
      | some x =>
        some (some
          { userId := candidate.id
            name := candidate.name
            bio := candidate.bio
            interests := candidate.interests
            imageUrl := candidate.imageUrl
            matchScore := mathMin (JsNum.fin 100) (mathMax (JsNum.fin 0) x)
            matchReason := valOr m.reason (JsVal.str "Similar interests and study goals") })
    else some none

/-- The `map` over the whole filtered array; `none` is a throw. -/
def mapMatches (rt : Runtime) (candidates : List Candidate) :
    List MatchCandidate → Option (List (Option EnrichedMatch))
  | [] => some []
  | m :: rest =>
    match enrich rt candidates m, mapMatches rt candidates rest with
    | some e, some mapped => some (e :: mapped)
    | _, _ => none

/-- Second filter: `m !== null`. -/
def dropNulls : List (Option EnrichedMatch) → List EnrichedMatch
  | [] => []
  | none :: rest => dropNulls rest
  | some e :: rest => e :: dropNulls rest

/-- The comparator `(a, b) => b.matchScore - a.matchScore`. -/
def comparator (a b : EnrichedMatch) : JsNum :=
  b.matchScore.sub a.matchScore

/-- Insertion of `a` in front of an already sorted list whose elements all
came after `a`: `a` moves behind `b` only when `comparator(a, b) > 0`. -/
def insertSorted (a : EnrichedMatch) : List EnrichedMatch → List EnrichedMatch
  | [] => [a]
  | b :: rest =>
    if (comparator a b).gt (JsNum.fin 0) then b :: insertSorted a rest
    else a :: b :: rest

/-- The call `.sort(comparator)`, as the stable sort it is. -/
def sortMatches : List EnrichedMatch → List EnrichedMatch
  | [] => []
  | a :: rest => insertSorted a (sortMatches rest)

/-- The list before sorting: `filter`, `map`, `filter`; `none` is a throw. -/
def mappedMatches (rt : Runtime) (candidates : List Candidate)
    (ms : List (Option MatchCandidate)) : Option (List EnrichedMatch) :=
  match filterMatches rt ms with
  | none => none
  | some kept =>
    match mapMatches rt candidates kept with
    | none => none
    | some mapped => some (dropNulls mapped)

/-- The constant `enrichedMatches` of the source; `none` is a throw. -/
def enrichedMatches (rt : Runtime) (candidates : List Candidate)
    (ms : List (Option MatchCandidate)) : Option (List EnrichedMatch) :=
  match mappedMatches rt candidates ms with
  | none => none
  | some mapped => some ((sortMatches mapped).take 20)

/-! ## Prompt rendering (source lines 66 to 96) -/

/-- The inner template literal of the `candidates.map((c, idx) => ...)` call. -/
def candidateBlock (c : Candidate) (idx : Nat) : String :=
  "\n" ++ toString (idx + 1) ++ ". " ++ c.name ++
  "\n   - Interests: " ++ orDefault (joinComma c.interests) "None listed" ++
  "\n   - Bio: " ++ orDefault c.bio "No bio" ++ "\n"

/-- The array `candidates.map((c, idx) => ...)`, with `idx` counted from
`start`. -/
def candidateBlocksFrom (start : Nat) : List Candidate → List String
  | [] => []
  | c :: rest => candidateBlock c start :: candidateBlocksFrom (start + 1) rest

/-- The array `candidates.map((c, idx) => ...)`. -/
def candidateBlocks (candidates : List Candidate) : List String :=
  candidateBlocksFrom 0 candidates

/-- The constant `prompt` of the matchmaking function. -/
def matchPrompt (interests : List String) (bio : Option String)
    (candidates : List Candidate) : String :=
  "You are a study buddy matchmaking assistant. Analyze the following user profile and candidate profiles to suggest the best study matches.\n\nCurrent User Profile:\n- Interests: "
  ++ joinComma interests ++ "\n- Bio: " ++ strOr bio "No bio provided"
  ++ "\n\nCandidate Profiles:\n"
  ++ String.intercalate "\n" (candidateBlocks candidates)
  ++ "\n\nFor each candidate, provide a match score (0-100) and a brief, friendly explanation (max 50 words) of why they would be a good study buddy. Consider:\n1. Overlapping interests (most important)\n2. Complementary skills\n3. Bio compatibility\n4. Study style hints\n\nRespond in valid JSON format:\n\x7b\n  \"matches\": [\n    \x7b\n      \"candidateIndex\": 0,\n      \"score\": 85,\n      \"reason\": \"Your explanation here\"\n    \x7d\n  ]\n\x7d\n\nOnly include candidates with score >= 50. Sort by score descending."

/-! ## Normalisation of the model reply (source lines 106 to 109) -/

/-- Global replacement of `pat` followed by at most one line feed with the
empty string, scanning left to right; `skip` counts the characters of the
current match that are still to be dropped. -/
def removeFence (pat : List Char) : Nat → List Char → List Char
  | _, [] => []
  | skip + 1, _ :: rest => removeFence pat skip rest
  | 0, c :: rest =>
    if pat.isPrefixOf (c :: rest) then
      removeFence pat
        (pat.length - 1 + (if (rest.drop (pat.length - 1)).head? = some '\n' then 1 else 0))
        rest
    else c :: removeFence pat 0 rest

/-- White space and line terminators, the characters `String.prototype.trim`
strips. -/
def isJsWhiteSpace (c : Char) : Bool :=
  c.val = 0x09 || c.val = 0x0A || c.val = 0x0B || c.val = 0x0C || c.val = 0x0D ||
  c.val = 0x20 || c.val = 0xA0 || c.val = 0x1680 ||
  (0x2000 ≤ c.val && c.val ≤ 0x200A) ||
  c.val = 0x2028 || c.val = 0x2029 || c.val = 0x202F || c.val = 0x205F ||
  c.val = 0x3000 || c.val = 0xFEFF

/-- The call `.trim()` on a character list. -/
def jsTrim (cs : List Char) : List Char :=
  ((cs.dropWhile isJsWhiteSpace).reverse.dropWhile isJsWhiteSpace).reverse

/-- The constant `cleanedText`:
`text.replace(/```json\n?/g, "").replace(/```\n?/g, "").trim()`. -/
def cleanedText (text : String) : String :=
  String.mk (jsTrim (removeFence "```".toList 0 (removeFence "```json".toList 0 text.toList)))

/-! ## The callable `findStudyBuddyMatches` (source lines 17 to 151) -/

/-- The error a callable throws to its client. -/
structure HttpsError where
  code : String
  message : String
deriving DecidableEq

/-- The property `request.data.interests`. -/
inductive InterestsField where
  /-- A falsy value: `undefined`, `null`, and the like. -/
  | missing
  /-- A truthy value that is not an array. -/
  | notArray
  | array (items : List String)
deriving DecidableEq

/-- The object `request.data` of the matchmaking call. -/
structure MatchRequestData where
  interests : InterestsField
  bio : Option String
deriving DecidableEq

/-- The callable request: `auth` is absent for an unauthenticated call and
otherwise carries the `uid`. -/
structure MatchRequest where
  auth : Option String
  data : MatchRequestData
deriving DecidableEq

/-- The value `JSON.parse` returned; the field stands for the property
`matches` (a reserved word here) and is `none` when the value has no `matches`
array, in which case `matchData.matches.filter` throws a `TypeError`. An
element of the array is `none` when it is `null`. -/
structure MatchData where
  matches_ : Option (List (Option MatchCandidate))
deriving DecidableEq

/-- The external collaborators of one matchmaking call. -/
structure MatchEnv where
  /-- The read `admin.firestore().collection("users").get()`; `none` when it
  rejects. -/
  usersSnapshot : Option (List Doc)
  /-- The model call, from the prompt to `response.text()`; `none` when it
  throws. -/
  generateContent : String → Option String
  /-- The call `JSON.parse`; `none` when it throws. -/
  jsonParse : String → Option MatchData
  /-- The conversions of the language. -/
  runtime : Runtime

/-- The inner `try`/`catch` around the parse (source lines 104 to 117). -/
def parseMatchData (env : MatchEnv) (text : String) : Except HttpsError MatchData :=
  match env.jsonParse (cleanedText text) with
  | some matchData => Except.ok matchData
  | none => Except.error ⟨"internal", "Failed to parse AI matchmaking results"⟩

/-- What a `catch` clause may receive. -/
inductive Thrown where
  /-- An `HttpsError` thrown by the function's own code. -/
  | https (e : HttpsError)
  /-- The rejection of the users read. -/
  | storeError
  /-- An exception of the model client. -/
  | modelError
  /-- A `TypeError` of the runtime. -/
  | typeError
deriving DecidableEq

/-- The body of the outer `try` block (source lines 37 to 142); an
`Except.error` is what is thrown inside it. -/
def matchBody (env : MatchEnv) (currentUserId : String) (interests : List String)
    (bio : Option String) : Except Thrown (List EnrichedMatch) :=
  match env.usersSnapshot with
  | none => Except.error Thrown.storeError
  | some docs =>
    let candidates := gatherCandidates currentUserId docs
    if candidates.length = 0 then Except.ok []
    else
      match env.generateContent (matchPrompt interests bio candidates) with
      | none => Except.error Thrown.modelError
      | some text =>
        match parseMatchData env text with
        | Except.error e => Except.error (Thrown.https e)
        | Except.ok matchData =>
          match matchData.matches_ with
          | none => Except.error Thrown.typeError
          | some ms =>
            match enrichedMatches env.runtime candidates ms with
            | none => Except.error Thrown.typeError
            | some enriched => Except.ok enriched

/-- The callable: authentication check, validation, then the `try` block whose
`catch` turns whatever was thrown into the `internal` error. The result is the
`matches` array of the returned object. -/
def findStudyBuddyMatches (env : MatchEnv) (request : MatchRequest) :
    Except HttpsError (List EnrichedMatch) :=
  match request.auth with
  | none => Except.error ⟨"unauthenticated", "User must be authenticated"⟩
  | some currentUserId =>
    match request.data.interests with
    | InterestsField.missing =>
      Except.error ⟨"invalid-argument", "Interests array is required and must not be empty"⟩
    | InterestsField.notArray =>
      Except.error ⟨"invalid-argument", "Interests array is required and must not be empty"⟩
    | InterestsField.array interests =>
      if interests.length = 0 then
        Except.error ⟨"invalid-argument", "Interests array is required and must not be empty"⟩
      else
        match matchBody env currentUserId interests request.data.bio with
        | Except.ok ms => Except.ok ms
        | Except.error _ => Except.error ⟨"internal", "An error occurred during matchmaking"⟩

/-! ## The callable `getConversationStarters` (source lines 159 to 254) -/

/-- A property interpolated into a template literal as it is: `undefined`
prints as the word `undefined`. -/
def templateStr (s : Option String) : String :=
  match s with
  | some v => v
  | none => "undefined"

/-- The constant `prompt` of the starter function (source lines 194 to 220). -/
def starterPrompt (currentUser targetUser : UserData) : String :=
  "Generate 4 friendly, natural conversation starters for a study buddy connection.\n\nYour Profile:\n- Name: "
  ++ templateStr currentUser.name
  ++ "\n- Interests: " ++ joinComma (arrOr currentUser.interests)
  ++ "\n- Bio: " ++ strOr currentUser.bio "No bio"
  ++ "\n\nTheir Profile:\n- Name: " ++ templateStr targetUser.name
  ++ "\n- Interests: " ++ joinComma (arrOr targetUser.interests)
  ++ "\n- Bio: " ++ strOr targetUser.bio "No bio"
  ++ "\n\nCreate conversation starters that:\n1. Reference shared interests\n2. Are casual and friendly\n3. Invite collaboration\n4. Are 10-20 words each\n\nRespond in valid JSON:\n\x7b\n  \"starters\": [\n    \"Your starter here\",\n    \"Another starter\",\n    \"Third starter\",\n    \"Fourth starter\"\n  ]\n\x7d"

/-- The callable request of the starter function; `targetUserId` is the
property `request.data.targetUserId`, absent or a string. -/
structure StarterRequest where
  auth : Option String
  targetUserId : Option String
deriving DecidableEq

/-- The value the starter function returns, read through the reply schema:
`starters` is `none` when the value has no `starters` array. -/
structure StarterData where
  starters : Option (List String)
deriving DecidableEq

/-- The external collaborators of one starter call. -/
structure StarterEnv where
  /-- The read `collection("users").doc(id).get()`: `none` when it rejects,
  `some none` for a snapshot whose `exists` is false, `some (some data)`
  otherwise. -/
  getDoc : String → Option (Option UserData)
  /-- The model call, from the prompt to `response.text()`; `none` when it
  throws. -/
  generateContent : String → Option String
  /-- The call `JSON.parse`; `none` when it throws. -/
  jsonParse : String → Option StarterData

/-- The object assigned in the `catch` of the parse (source lines 235 to
242). -/
def fallbackStarters (targetUser : UserData) : StarterData :=
  { starters := some
      [ "Hey " ++ templateStr targetUser.name ++ "! Want to study together?",
        "I saw we share some interests. Want to collaborate?",
        "Looking for a study buddy - interested?",
        "Would love to learn from you!" ] }

/-- The inner `try`/`catch` around the parse (source lines 226 to 243). -/
def parseStarterData (env : StarterEnv) (targetUser : UserData) (text : String) :
    StarterData :=
  match env.jsonParse (cleanedText text) with
  | some starterData => starterData
  | none => fallbackStarters targetUser

/-- The body of the outer `try` block (source lines 177 to 245); an
`Except.error` is what is thrown inside it. -/
def starterBody (env : StarterEnv) (currentUserId targetUserId : String) :
    Except Thrown StarterData :=
  match env.getDoc currentUserId, env.getDoc targetUserId with
  | some currentUserDoc, some targetUserDoc =>
    match currentUserDoc, targetUserDoc with
    | some currentUser, some targetUser =>
      match env.generateContent (starterPrompt currentUser targetUser) with
      | none => Except.error Thrown.modelError
      | some text => Except.ok (parseStarterData env targetUser text)
    | _, _ => Except.error (Thrown.https ⟨"not-found", "User profile not found"⟩)
  | _, _ => Except.error Thrown.storeError

/-- The callable: authentication check, argument check, then the `try` block
whose `catch` turns whatever was thrown into the `internal` error. -/
def getConversationStarters (env : StarterEnv) (request : StarterRequest) :
    Except HttpsError StarterData :=
  match request.auth with
  | none => Except.error ⟨"unauthenticated", "User must be authenticated"⟩
  | some currentUserId =>
    match request.targetUserId with
    | none => Except.error ⟨"invalid-argument", "Target user ID is required"⟩
    | some targetUserId =>
      if targetUserId = "" then
        Except.error ⟨"invalid-argument", "Target user ID is required"⟩
      else
        match starterBody env currentUserId targetUserId with
        | Except.ok starterData => Except.ok starterData
        | Except.error _ =>
          Except.error ⟨"internal", "Failed to generate conversation starters"⟩


/-! ## Vocabulary of the statements -/

/-- Entry `a` may stand before entry `b` in a list sorted non-increasing by
`matchScore`: both scores are numbers and the first is at least the second. -/
def ScoreGe (a b : EnrichedMatch) : Prop :=
  a.matchScore.ge b.matchScore = true

/-- The score of an entry is a number between `lo` and `hi`. -/
def ScoreWithin (lo hi : ℚ) (e : EnrichedMatch) : Prop :=
  ∃ q : ℚ, e.matchScore = JsNum.fin q ∧ lo ≤ q ∧ q ≤ hi

/-- The index `idx` is a number that names a position of the pool: a whole
number `n` with `n < candidates.length`. -/
def ValidIndex (candidates : List Candidate) (idx : JsVal) : Prop :=
  ∃ n : Nat, idx = JsVal.num (n : ℚ) ∧ n < candidates.length

/-- The index `idx` is absent or a number, as the reply schema of the prompt
has it. -/
def PlainIndex (idx : JsVal) : Prop :=
  idx = JsVal.undefined ∨ ∃ q : ℚ, idx = JsVal.num q

/-- The entry built from pool candidate `c` with score `q` and the model's
`reason`. -/
def entryOf (c : Candidate) (q : ℚ) (reason : JsVal) : EnrichedMatch :=
  { userId := some c.id
    name := some c.name
    bio := some c.bio
    interests := some c.interests
    imageUrl := some c.imageUrl
    matchScore := JsNum.fin q
    matchReason := valOr reason (JsVal.str "Similar interests and study goals") }

/-- Position in the pool of the candidate whose stored id is `uid`. -/
def poolPosition (candidates : List Candidate) (uid : Option String) : Nat :=
  (candidates.map (fun c => some c.id)).indexOf uid

/-- The tie rule in the words of the specification: of two entries with equal
`matchScore`, the one that stands first belongs to the candidate with the lower
pool position. -/
def TiesInPoolOrder (candidates : List Candidate) (out : List EnrichedMatch) : Prop :=
  out.Pairwise (fun a b => a.matchScore = b.matchScore →
    poolPosition candidates a.userId ≤ poolPosition candidates b.userId)

/-- What one element of the reply contributes to the list handed to `sort`:
the outer `none` is a throw, `some none` is nothing (the element is filtered
out, or mapped to `null`), `some (some e)` is the entry `e`. -/
def contribution (rt : Runtime) (candidates : List Candidate) (m : Option MatchCandidate) :
    Option (Option EnrichedMatch) :=
  match m with
  | none => none
  | some m =>
    match keepEntry rt m with
    | none => none
    | some false => some none
    | some true => enrich rt candidates m

/-- The entries the reply contributes, in the order the model listed them;
`none` when an element makes the code throw. -/
def inReplyOrder (rt : Runtime) (candidates : List Candidate) :
    List (Option MatchCandidate) → Option (List EnrichedMatch)
  | [] => some []
  | m :: rest =>
    match contribution rt candidates m, inReplyOrder rt candidates rest with
    | some none, some listed => some listed
    | some (some e), some listed => some (e :: listed)
    | _, _ => none

/-- The entries of `l` whose score is `s`, in the order of `l`. -/
def withScore (s : JsNum) (l : List EnrichedMatch) : List EnrichedMatch :=
  l.filter (fun e => decide (e.matchScore = s))

/-- The same element with the echoed properties replaced by `extras`. -/
def withExtras (extras : MatchCandidate → List (String × JsVal)) (m : Option MatchCandidate) :
    Option MatchCandidate :=
  m.map (fun r => { r with extras := extras r })

/-- The score is a whole number. -/
def WholeScore (x : JsNum) : Prop :=
  ∃ z : ℤ, x = JsNum.fin (z : ℚ)

/-- The text `t` wrapped in a surrounding code fence. -/
def fenced (t : String) : String :=
  "```json\n" ++ t ++ "\n```"

/-- The call `t.trim()`. -/
def trimmed (t : String) : String :=
  String.mk (jsTrim t.toList)

/-- The text holds a run of three backticks. -/
def HasFence (t : String) : Prop :=
  "```".toList <:+: t.toList

/-- The pool candidate that the `candidateIndex` of a reply element resolves
to, if it resolves to one. -/
def resolvedCandidate (rt : Runtime) (candidates : List Candidate)
    (m : Option MatchCandidate) : Option Candidate :=
  match m with
  | none => none
  | some r =>
    match lookupCandidate rt candidates r.candidateIndex with
    | some (some (Looked.candidate c)) => some c
    | _ => none

/-- The pool candidates that the elements of the reply resolve to, in reply
order, one occurrence for each element that resolves. -/
def resolvedCandidates (rt : Runtime) (candidates : List Candidate)
    (ms : List (Option MatchCandidate)) : List Candidate :=
  ms.filterMap (resolvedCandidate rt candidates)

/-- The user ids that the entries of a list carry. -/
def userIds (l : List EnrichedMatch) : List String :=
  l.filterMap (fun e => e.userId)

/-- The reply element qualifies in the sense of the specification: its score
converts to a number of at least 50 and its `candidateIndex` resolves to a
pool candidate. -/
def qualifies (rt : Runtime) (candidates : List Candidate) (m : Option MatchCandidate) :
    Bool :=
  match m with
  | none => false
  | some r =>
    (match toNumber rt r.score with
      | some x => x.ge (JsNum.fin 50)
      | none => false) &&
    (resolvedCandidate rt candidates (some r)).isSome

/-- The reply element yields an entry of the list handed to `sort`. -/
def contributes (rt : Runtime) (candidates : List Candidate) (m : Option MatchCandidate) :
    Bool :=
  match contribution rt candidates m with
  | some (some _) => true
  | _ => false

/-! ## Sample data -/

/-- A runtime for the examples: a string of decimal digits converts to its
number and the other strings used below to `NaN`; of the inherited properties
it lists `constructor` and the method `map`. -/
def sampleRuntime : Runtime :=
  { stringToNumber := fun s =>
      match s.toNat? with
      | some n => JsNum.fin (n : ℚ)
      | none => JsNum.nan
    inherited := fun key =>
      if key = "constructor" then some (some "Array")
      else if key = "map" then some (some "map")
      else none }

/-- A stored user with every field set. -/
def docAlice : Doc :=
  ⟨"u1", ⟨some "Alice", some "Algebra fan", some ["math", "chess"], some "a.png"⟩⟩

/-- A stored user with no bio and no interests. -/
def docBob : Doc := ⟨"u2", ⟨some "Bob", none, none, none⟩⟩

/-- A stored user without a name. -/
def docCarol : Doc := ⟨"u3", ⟨none, some "", some [], some ""⟩⟩

/-- The caller's own document. -/
def docMe : Doc := ⟨"me", ⟨some "Me", none, some ["math"], none⟩⟩

/-- A snapshot of four users, the caller second. -/
def sampleDocs : List Doc := [docAlice, docMe, docBob, docCarol]

/-- The pool gathered from `sampleDocs` for caller `"me"`. -/
def samplePool : List Candidate := [toCandidate docAlice, toCandidate docBob, toCandidate docCarol]

/-- An authenticated request with one interest. -/
def sampleRequest : MatchRequest := ⟨some "me", ⟨InterestsField.array ["math"], none⟩⟩

/-- Matchmaking collaborators whose model call or parse may fail. -/
def envRaw (docs : Option (List Doc)) (reply : Option String) (parsed : Option MatchData) :
    MatchEnv :=
  { usersSnapshot := docs
    generateContent := fun _ => reply
    jsonParse := fun _ => parsed
    runtime := sampleRuntime }

/-- Collaborators that hand back a fixed parsed reply. -/
def envWith (docs : List Doc) (ms : List (Option MatchCandidate)) : MatchEnv :=
  { usersSnapshot := some docs
    generateContent := fun _ => some "reply"
    jsonParse := fun _ => some ⟨some ms⟩
    runtime := sampleRuntime }

/-- Model entry: index 0, score 90. -/
def mAlice90 : MatchCandidate := ⟨JsVal.num 0, JsVal.num 90, JsVal.undefined, []⟩

/-- Model entry: index 1, score 60. -/
def mBob60 : MatchCandidate := ⟨JsVal.num 1, JsVal.num 60, JsVal.undefined, []⟩

/-- Model entry without a `candidateIndex`. -/
def mNoIndex : MatchCandidate := ⟨JsVal.undefined, JsVal.num 95, JsVal.undefined, []⟩

/-- Model entry whose index is the pool size of the sample pool. -/
def mIndexThree : MatchCandidate :=
  ⟨JsVal.num ((3 : Nat) : ℚ), JsVal.num 99, JsVal.undefined, []⟩

/-- Model entry: index 1, score 80. -/
def mBob80 : MatchCandidate := ⟨JsVal.num 1, JsVal.num 80, JsVal.undefined, []⟩

/-- Model entry: index 0, score 80. -/
def mAlice80 : MatchCandidate :=
  ⟨JsVal.num 0, JsVal.num 80, JsVal.str "Shared interest in math", []⟩

/-- Model entry: index 0 again, score 80. -/
def mAliceAgain : MatchCandidate := ⟨JsVal.num 0, JsVal.num 80, JsVal.str "Second opinion", []⟩

/-- Model entry for index 1 that echoes profile fields of its own making. -/
def mBobEcho : MatchCandidate :=
  ⟨JsVal.num 1, JsVal.num 60, JsVal.undefined,
    [("name", JsVal.str "Robert"), ("userId", JsVal.str "u999"), ("bio", JsVal.str "made up")]⟩

/-- A reply that names candidates by the numbers printed in the prompt: `1`
for the first candidate of the sample pool and `3` for the third. -/
def replyByLabel : List (Option MatchCandidate) :=
  [some ⟨JsVal.num 1, JsVal.num 90, JsVal.str "meant for the first candidate", []⟩,
   some ⟨JsVal.num 3, JsVal.num 80, JsVal.str "meant for the third candidate", []⟩]

/-- A profile store with the documents of `sampleDocs`; any other id names no
document. -/
def sampleGetDoc (id : String) : Option (Option UserData) :=
  if id = "me" then some (some docMe.data)
  else if id = "u1" then some (some docAlice.data)
  else if id = "u2" then some (some docBob.data)
  else if id = "u3" then some (some docCarol.data)
  else some none

/-- Starter collaborators over the sample store: the model answers `"reply"`
and `JSON.parse` yields `parsed`. -/
def starterEnvWith (parsed : Option StarterData) : StarterEnv :=
  { getDoc := sampleGetDoc
    generateContent := fun _ => some "reply"
    jsonParse := fun _ => parsed }

/-- A starter request of caller `"me"` for target `tid`. -/
def starterRequestFor (tid : String) : StarterRequest := ⟨some "me", some tid⟩

/-- Model entry: index 0 with the fractional score 75.5. -/
def mAliceHalf : MatchCandidate :=
  ⟨JsVal.num ((0 : Nat) : ℚ), JsVal.num (151 / 2), JsVal.undefined, []⟩

/-- Twenty-two model entries for index 0, scores 51 to 72 in rising order. -/
def manyEntries : List (Option MatchCandidate) :=
  (List.range 22).map (fun k =>
    some ⟨JsVal.num 0, JsVal.num ((51 + k : Nat) : ℚ), JsVal.undefined, []⟩)

/-- Model entry: index 2, score 90. -/
def mCarol90 : MatchCandidate := ⟨JsVal.num 2, JsVal.num 90, JsVal.undefined, []⟩

/-- Model entry whose index is the string `length`. -/
def mLength90 : MatchCandidate := ⟨JsVal.str "length", JsVal.num 90, JsVal.undefined, []⟩

/-- Model entry whose index is the string `1`. -/
def mBobString : MatchCandidate := ⟨JsVal.str "1", JsVal.num 70, JsVal.undefined, []⟩

/-- The entry that the index `length` produces: no profile field is set. -/
def entryOfLength (q : ℚ) : EnrichedMatch :=
  { userId := none
    name := none
    bio := none
    interests := none
    imageUrl := none
    matchScore := JsNum.fin q
    matchReason := JsVal.str "Similar interests and study goals" }

/-! ## Auxiliary lemmas -/

theorem mem_dropNulls {l : List (Option EnrichedMatch)} {e : EnrichedMatch} :
    e ∈ dropNulls l ↔ some e ∈ l := by
  induction l with
  | nil => simp [dropNulls]
  | cons a rest ih =>
    cases a with
    | none => simp [dropNulls, ih]
    | some b => simp [dropNulls, ih]

theorem insertSorted_perm (a : EnrichedMatch) (l : List EnrichedMatch) :
    (insertSorted a l).Perm (a :: l) := by
  induction l with
  | nil => simp [insertSorted]
  | cons b rest ih =>
    unfold insertSorted
    split
    · exact ((List.Perm.cons b ih).trans (List.Perm.swap a b rest))
    · exact List.Perm.refl _

theorem sortMatches_perm (l : List EnrichedMatch) : (sortMatches l).Perm l := by
  induction l with
  | nil => simp [sortMatches]
  | cons a rest ih =>
    unfold sortMatches
    exact (insertSorted_perm a _).trans (List.Perm.cons a ih)

theorem mappedMatches_cons_null (rt : Runtime) (candidates : List Candidate)
    (rest : List (Option MatchCandidate)) :
    mappedMatches rt candidates (none :: rest) = none := by
  simp [mappedMatches, filterMatches]

theorem mappedMatches_cons (rt : Runtime) (candidates : List Candidate) (m : MatchCandidate)
    (rest : List (Option MatchCandidate)) :
    mappedMatches rt candidates (some m :: rest) =
      match contribution rt candidates (some m), mappedMatches rt candidates rest with
      | some none, some listed => some listed
      | some (some e), some listed => some (e :: listed)
      | _, _ => none := by
  unfold mappedMatches
  simp only [filterMatches, contribution]
  cases hk : keepEntry rt m with
  | none => simp
  | some keep =>
    cases hf : filterMatches rt rest with
    | none =>
      cases keep with
      | false => simp
      | true =>
        cases he : enrich rt candidates m with
        | none => simp
        | some e => cases e <;> simp
    | some kept =>
      cases keep with
      | false =>
        cases hm : mapMatches rt candidates kept <;> simp [hm]
      | true =>
        cases he : enrich rt candidates m with
        | none => simp [mapMatches, he]
        | some e =>
          cases hm : mapMatches rt candidates kept with
          | none => cases e <;> simp [mapMatches, he, hm]
          | some mapped => cases e <;> simp [mapMatches, he, hm, dropNulls]

/-- The three stages over the whole array agree with the element-wise
account: each element is filtered and mapped on its own. -/
theorem mappedMatches_eq_inReplyOrder (rt : Runtime) (candidates : List Candidate)
    (ms : List (Option MatchCandidate)) :
    mappedMatches rt candidates ms = inReplyOrder rt candidates ms := by
  induction ms with
  | nil => rfl
  | cons m rest ih =>
    cases m with
    | none => rw [mappedMatches_cons_null]; simp [inReplyOrder, contribution]
    | some m => rw [mappedMatches_cons, ih]; rfl

theorem enrichedMatches_eq (rt : Runtime) (candidates : List Candidate)
    (ms : List (Option MatchCandidate)) :
    enrichedMatches rt candidates ms =
      (inReplyOrder rt candidates ms).map (fun listed => (sortMatches listed).take 20) := by
  unfold enrichedMatches
  rw [mappedMatches_eq_inReplyOrder]
  cases inReplyOrder rt candidates ms <;> rfl

theorem enrichedMatches_some {rt : Runtime} {candidates : List Candidate}
    {ms : List (Option MatchCandidate)} {out : List EnrichedMatch}
    (h : enrichedMatches rt candidates ms = some out) :
    ∃ listed, inReplyOrder rt candidates ms = some listed ∧
      out = (sortMatches listed).take 20 := by
  rw [enrichedMatches_eq] at h
  cases hl : inReplyOrder rt candidates ms with
  | none => rw [hl] at h; cases h
  | some listed =>
    rw [hl] at h
    exact ⟨listed, rfl, (Option.some.inj h).symm⟩

theorem inReplyOrder_cons_skip (rt : Runtime) (candidates : List Candidate)
    (m : Option MatchCandidate) (rest : List (Option MatchCandidate))
    (h : contribution rt candidates m = some none) :
    inReplyOrder rt candidates (m :: rest) = inReplyOrder rt candidates rest := by
  rw [inReplyOrder, h]
  cases inReplyOrder rt candidates rest <;> rfl

theorem inReplyOrder_cons_keep (rt : Runtime) (candidates : List Candidate)
    (m : Option MatchCandidate) (rest : List (Option MatchCandidate)) (e : EnrichedMatch)
    (h : contribution rt candidates m = some (some e)) :
    inReplyOrder rt candidates (m :: rest) =
      (inReplyOrder rt candidates rest).map (fun listed => e :: listed) := by
  rw [inReplyOrder, h]
  cases inReplyOrder rt candidates rest <;> rfl

theorem inReplyOrder_cons_throw (rt : Runtime) (candidates : List Candidate)
    (m : Option MatchCandidate) (rest : List (Option MatchCandidate))
    (h : contribution rt candidates m = none) :
    inReplyOrder rt candidates (m :: rest) = none := by
  rw [inReplyOrder, h]

theorem inReplyOrder_append (rt : Runtime) (candidates : List Candidate)
    (a b : List (Option MatchCandidate)) :
    inReplyOrder rt candidates (a ++ b) =
      match inReplyOrder rt candidates a, inReplyOrder rt candidates b with
      | some la, some lb => some (la ++ lb)
      | _, _ => none := by
  induction a with
  | nil =>
    rw [List.nil_append]
    cases inReplyOrder rt candidates b <;> rfl
  | cons m rest ih =>
    rw [List.cons_append]
    cases hc : contribution rt candidates m with
    | none =>
      rw [inReplyOrder_cons_throw _ _ _ _ hc, inReplyOrder_cons_throw _ _ _ _ hc]
    | some o =>
      cases o with
      | none =>
        rw [inReplyOrder_cons_skip _ _ _ _ hc, inReplyOrder_cons_skip _ _ _ _ hc, ih]
      | some e =>
        rw [inReplyOrder_cons_keep _ _ _ _ e hc, inReplyOrder_cons_keep _ _ _ _ e hc, ih]
        cases inReplyOrder rt candidates rest <;> cases inReplyOrder rt candidates b <;> rfl

theorem mem_inReplyOrder {rt : Runtime} {candidates : List Candidate}
    {ms : List (Option MatchCandidate)} {listed : List EnrichedMatch}
    (h : inReplyOrder rt candidates ms = some listed) {e : EnrichedMatch} :
    e ∈ listed ↔ ∃ m ∈ ms, contribution rt candidates m = some (some e) := by
  induction ms generalizing listed with
  | nil =>
    simp only [inReplyOrder, Option.some.injEq] at h
    subst h
    simp
  | cons m rest ih =>
    cases hc : contribution rt candidates m with
    | none => rw [inReplyOrder_cons_throw _ _ _ _ hc] at h; cases h
    | some o =>
      cases o with
      | none =>
        rw [inReplyOrder_cons_skip _ _ _ _ hc] at h
        rw [ih h]
        constructor
        · rintro ⟨m', hm', hc'⟩
          exact ⟨m', List.mem_cons_of_mem _ hm', hc'⟩
        · rintro ⟨m', hm', hc'⟩
          rcases List.mem_cons.mp hm' with rfl | hm'
          · rw [hc] at hc'; cases hc'
          · exact ⟨m', hm', hc'⟩
      | some e0 =>
        rw [inReplyOrder_cons_keep _ _ _ _ e0 hc] at h
        cases hr : inReplyOrder rt candidates rest with
        | none => rw [hr] at h; cases h
        | some lr =>
          rw [hr] at h
          simp only [Option.map_some', Option.some.injEq] at h
          subst h
          rw [List.mem_cons, ih hr]
          constructor
          · rintro (rfl | ⟨m', hm', hc'⟩)
            · exact ⟨m, List.mem_cons_self _ _, hc⟩
            · exact ⟨m', List.mem_cons_of_mem _ hm', hc'⟩
          · rintro ⟨m', hm', hc'⟩
            rcases List.mem_cons.mp hm' with rfl | hm'
            · rw [hc] at hc'
              left
              exact (Option.some.inj (Option.some.inj hc')).symm
            · exact Or.inr ⟨m', hm', hc'⟩

theorem contribution_some {rt : Runtime} {candidates : List Candidate}
    {m : Option MatchCandidate} {e : EnrichedMatch}
    (h : contribution rt candidates m = some (some e)) :
    ∃ r, m = some r ∧ keepEntry rt r = some true ∧ enrich rt candidates r = some (some e) := by
  cases m with
  | none => cases h
  | some r =>
    unfold contribution at h
    simp only at h
    cases hk : keepEntry rt r with
    | none => rw [hk] at h; cases h
    | some keep =>
      rw [hk] at h
      cases keep with
      | false => cases h
      | true => exact ⟨r, rfl, hk, h⟩

theorem keepEntry_true {rt : Runtime} {r : MatchCandidate} (h : keepEntry rt r = some true) :
    ∃ x, toNumber rt r.score = some x ∧ x.ge (JsNum.fin 50) = true ∧
      r.candidateIndex ≠ JsVal.undefined := by
  unfold keepEntry at h
  cases hx : toNumber rt r.score with
  | none => rw [hx] at h; cases h
  | some x =>
    rw [hx] at h
    simp only [Option.some.injEq, Bool.and_eq_true, decide_eq_true_eq] at h
    exact ⟨x, rfl, h.1, h.2⟩

theorem enrich_some {rt : Runtime} {candidates : List Candidate} {r : MatchCandidate}
    {e : EnrichedMatch} (h : enrich rt candidates r = some (some e)) :
    ∃ looked x, lookupCandidate rt candidates r.candidateIndex = some (some looked) ∧
      looked.truthy = true ∧ toNumber rt r.score = some x ∧
      e = { userId := looked.id, name := looked.name, bio := looked.bio,
            interests := looked.interests, imageUrl := looked.imageUrl,
            matchScore := mathMin (JsNum.fin 100) (mathMax (JsNum.fin 0) x),
            matchReason := valOr r.reason (JsVal.str "Similar interests and study goals") } := by
  unfold enrich at h
  cases hl : lookupCandidate rt candidates r.candidateIndex with
  | none => rw [hl] at h; cases h
  | some o =>
    rw [hl] at h
    cases o with
    | none => cases h
    | some looked =>
      simp only at h
      cases ht : looked.truthy with
      | false => rw [ht] at h; cases h
      | true =>
        rw [ht] at h
        simp only [if_true] at h
        cases hx : toNumber rt r.score with
        | none => rw [hx] at h; cases h
        | some x =>
          rw [hx] at h
          exact ⟨looked, x, rfl, ht, rfl, (Option.some.inj (Option.some.inj h)).symm⟩

theorem clamp_of_ge_fifty {x : JsNum} (h : x.ge (JsNum.fin 50) = true) :
    ∃ q : ℚ, mathMin (JsNum.fin 100) (mathMax (JsNum.fin 0) x) = JsNum.fin q ∧
      50 ≤ q ∧ q ≤ 100 ∧ ∀ p : ℚ, x = JsNum.fin p → q = min 100 p := by
  cases x with
  | nan => simp [JsNum.ge] at h
  | negInf => simp [JsNum.ge] at h
  | posInf =>
    refine ⟨100, by simp [mathMin, mathMax], by norm_num, le_refl _, ?_⟩
    intro p hp
    cases hp
  | fin p =>
    have hp : 50 ≤ p := by simpa [JsNum.ge] using h
    have hmax : max 0 p = p := max_eq_right (by linarith)
    refine ⟨min 100 p, by simp [mathMin, mathMax, hmax], le_min (by norm_num) hp,
      min_le_left _ _, ?_⟩
    intro p' hp'
    cases hp'
    rfl

theorem listed_score {rt : Runtime} {candidates : List Candidate}
    {ms : List (Option MatchCandidate)} {listed : List EnrichedMatch}
    (h : inReplyOrder rt candidates ms = some listed) {e : EnrichedMatch} (he : e ∈ listed) :
    ScoreWithin 50 100 e := by
  obtain ⟨m, _, hc⟩ := (mem_inReplyOrder h).mp he
  obtain ⟨r, _, hk, hen⟩ := contribution_some hc
  obtain ⟨x, hx, hge, _⟩ := keepEntry_true hk
  obtain ⟨looked, x', _, _, hx', rfl⟩ := enrich_some hen
  rw [hx] at hx'
  cases hx'
  obtain ⟨q, hq, h50, h100, _⟩ := clamp_of_ge_fifty hge
  exact ⟨q, hq, h50, h100⟩

theorem mem_enrichedMatches {rt : Runtime} {candidates : List Candidate}
    {ms : List (Option MatchCandidate)} {out : List EnrichedMatch}
    (h : enrichedMatches rt candidates ms = some out) {e : EnrichedMatch} (he : e ∈ out) :
    ∃ listed, inReplyOrder rt candidates ms = some listed ∧ e ∈ listed := by
  obtain ⟨listed, hl, rfl⟩ := enrichedMatches_some h
  exact ⟨listed, hl, (sortMatches_perm _).mem_iff.mp (List.mem_of_mem_take he)⟩

theorem enrichedMatches_remove (rt : Runtime) (candidates : List Candidate)
    (m : Option MatchCandidate) (pre post : List (Option MatchCandidate))
    (h : contribution rt candidates m = some none) :
    enrichedMatches rt candidates (pre ++ m :: post) =
      enrichedMatches rt candidates (pre ++ post) := by
  rw [enrichedMatches_eq, enrichedMatches_eq, inReplyOrder_append, inReplyOrder_append,
    inReplyOrder_cons_skip _ _ _ _ h]

theorem scoreGe_trans {a b c : EnrichedMatch} (hab : ScoreGe a b) (hbc : ScoreGe b c) :
    ScoreGe a c := by
  unfold ScoreGe at *
  cases ha : a.matchScore <;> cases hb : b.matchScore <;> cases hc : c.matchScore <;>
    simp_all [JsNum.ge]
  exact le_trans hbc hab

theorem insertSorted_sorted (a : EnrichedMatch) (l : List EnrichedMatch)
    (ha : ∃ q, a.matchScore = JsNum.fin q) (hl : ∀ b ∈ l, ∃ q, b.matchScore = JsNum.fin q)
    (hs : l.Pairwise ScoreGe) : (insertSorted a l).Pairwise ScoreGe := by
  induction l with
  | nil => simp [insertSorted]
  | cons b rest ih =>
    obtain ⟨qa, hqa⟩ := ha
    obtain ⟨qb, hqb⟩ := hl b (List.mem_cons_self _ _)
    have hrest := List.pairwise_cons.mp hs
    unfold insertSorted
    split
    · rename_i hgt
      have hlt : qa < qb := by
        simpa [comparator, hqa, hqb, JsNum.sub, JsNum.gt] using hgt
      refine List.pairwise_cons.mpr ⟨?_, ih (fun x hx => hl x (List.mem_cons_of_mem _ hx)) hrest.2⟩
      intro x hx
      rcases List.mem_cons.mp ((insertSorted_perm a rest).mem_iff.mp hx) with rfl | hx
      · simp [ScoreGe, hqa, hqb, JsNum.ge, hlt.le]
      · exact hrest.1 x hx
    · rename_i hgt
      have hle : qb ≤ qa := by
        simpa [comparator, hqa, hqb, JsNum.sub, JsNum.gt] using hgt
      have hab : ScoreGe a b := by simp [ScoreGe, hqa, hqb, JsNum.ge, hle]
      refine List.pairwise_cons.mpr ⟨?_, hs⟩
      intro x hx
      rcases List.mem_cons.mp hx with rfl | hx
      · exact hab
      · exact scoreGe_trans hab (hrest.1 x hx)

theorem sortMatches_sorted (l : List EnrichedMatch)
    (hl : ∀ b ∈ l, ∃ q, b.matchScore = JsNum.fin q) : (sortMatches l).Pairwise ScoreGe := by
  induction l with
  | nil => simp [sortMatches]
  | cons a rest ih =>
    unfold sortMatches
    have hrest : ∀ b ∈ rest, ∃ q, b.matchScore = JsNum.fin q :=
      fun b hb => hl b (List.mem_cons_of_mem _ hb)
    refine insertSorted_sorted a _ (hl a (List.mem_cons_self _ _)) ?_ (ih hrest)
    intro b hb
    exact hrest b ((sortMatches_perm rest).mem_iff.mp hb)

theorem listed_sorted {rt : Runtime} {candidates : List Candidate}
    {ms : List (Option MatchCandidate)} {listed : List EnrichedMatch}
    (h : inReplyOrder rt candidates ms = some listed) :
    (sortMatches listed).Pairwise ScoreGe := by
  refine sortMatches_sorted _ ?_
  intro b hb
  obtain ⟨q, hq, _⟩ := listed_score h hb
  exact ⟨q, hq⟩

theorem enrichedMatches_sorted {rt : Runtime} {candidates : List Candidate}
    {ms : List (Option MatchCandidate)} {out : List EnrichedMatch}
    (h : enrichedMatches rt candidates ms = some out) : out.Pairwise ScoreGe := by
  obtain ⟨listed, hl, rfl⟩ := enrichedMatches_some h
  exact List.Pairwise.sublist (List.take_sublist _ _) (listed_sorted hl)

/-- What a successful call returns: the empty list of the short circuit, or
the reconciled list for the gathered pool and some parsed reply. -/
theorem returned_matches {env : MatchEnv} {request : MatchRequest}
    {out : List EnrichedMatch} (h : findStudyBuddyMatches env request = Except.ok out) :
    ∃ uid docs, request.auth = some uid ∧ env.usersSnapshot = some docs ∧
      (out = [] ∨
        ∃ ms, enrichedMatches env.runtime (gatherCandidates uid docs) ms = some out) := by
  unfold findStudyBuddyMatches at h
  split at h
  · cases h
  · rename_i uid hauth
    split at h
    · cases h
    · cases h
    · rename_i interests _
      split at h
      · cases h
      · split at h
        · rename_i res hbody
          cases h
          unfold matchBody at hbody
          split at hbody
          · cases hbody
          · rename_i docs hdocs
            refine ⟨uid, docs, hauth, hdocs, ?_⟩
            simp only at hbody
            split at hbody
            · cases hbody; exact Or.inl rfl
            · split at hbody
              · cases hbody
              · split at hbody
                · cases hbody
                · split at hbody
                  · cases hbody
                  · rename_i ms _
                    split at hbody
                    · cases hbody
                    · rename_i enriched henr
                      cases hbody
                      exact Or.inr ⟨ms, henr⟩
        · cases h

/-- A call that passes the checks, finds a non-empty pool, gets a reply and
parses it returns the reconciled list, or fails with `internal` when the
reconciliation throws. -/
theorem findStudyBuddyMatches_run (env : MatchEnv) (request : MatchRequest) (uid : String)
    (interests : List String) (docs : List Doc) (text : String)
    (ms : List (Option MatchCandidate))
    (hauth : request.auth = some uid)
    (hint : request.data.interests = InterestsField.array interests)
    (hne : interests ≠ [])
    (hdocs : env.usersSnapshot = some docs)
    (hpool : gatherCandidates uid docs ≠ [])
    (hgen : env.generateContent
      (matchPrompt interests request.data.bio (gatherCandidates uid docs)) = some text)
    (hparse : env.jsonParse (cleanedText text) = some ⟨some ms⟩) :
    findStudyBuddyMatches env request =
      match enrichedMatches env.runtime (gatherCandidates uid docs) ms with
      | some out => Except.ok out
      | none => Except.error ⟨"internal", "An error occurred during matchmaking"⟩ := by
  have h1 : interests.length ≠ 0 := fun h => hne (List.length_eq_zero.mp h)
  have h2 : (gatherCandidates uid docs).length ≠ 0 := fun h => hpool (List.length_eq_zero.mp h)
  cases he : enrichedMatches env.runtime (gatherCandidates uid docs) ms <;>
    simp [findStudyBuddyMatches, hauth, hint, h1, matchBody, hdocs, h2, hgen, parseMatchData,
      hparse, he]

theorem candidateAt_natCast (candidates : List Candidate) (i : Nat) :
    candidateAt candidates (i : ℚ) = candidates[i]? := by
  simp [candidateAt]

theorem candidateAt_some {candidates : List Candidate} {i : ℚ} {c : Candidate}
    (h : candidateAt candidates i = some c) :
    ∃ n : Nat, i = n ∧ n < candidates.length ∧ candidates[n]? = some c := by
  unfold candidateAt at h
  split at h
  · rename_i hi
    refine ⟨i.num.toNat, ?_, ?_, h⟩
    · have h1 : ((i.num.toNat : ℤ)) = i.num := Int.toNat_of_nonneg hi.2
      have h2 : (i.num : ℚ) = i := (Rat.den_eq_one_iff i).mp hi.1
      rw [← h2]
      exact_mod_cast h1.symm
    · exact (List.getElem?_eq_some.mp h).1
  · cases h

theorem lookupCandidate_natCast (rt : Runtime) (candidates : List Candidate) (i : Nat) :
    lookupCandidate rt candidates (JsVal.num (i : ℚ)) =
      some ((candidates[i]?).map Looked.candidate) := by
  simp [lookupCandidate, candidateAt]

theorem elementAtKey_mem {start : Nat} {key : String} {candidates : List Candidate}
    {c : Candidate} (h : elementAtKey start key candidates = some c) : c ∈ candidates := by
  induction candidates generalizing start with
  | nil => cases h
  | cons d rest ih =>
    unfold elementAtKey at h
    split at h
    · cases h
      exact List.mem_cons_self _ _
    · exact List.mem_cons_of_mem _ (ih h)

theorem lookupKey_candidate {rt : Runtime} {candidates : List Candidate} {key : String}
    {c : Candidate} (h : lookupKey rt candidates key = some (Looked.candidate c)) :
    c ∈ candidates := by
  unfold lookupKey at h
  cases he : elementAtKey 0 key candidates with
  | some d =>
    rw [he] at h
    cases h
    exact elementAtKey_mem he
  | none =>
    rw [he] at h
    simp only at h
    split at h
    · cases h
    · cases hi : rt.inherited key with
      | none => rw [hi] at h; cases h
      | some nm => rw [hi] at h; cases h

/-- A looked-up value that is an element of the array is a member of the
pool, whatever the index was. -/
theorem lookupCandidate_candidate {rt : Runtime} {candidates : List Candidate} {idx : JsVal}
    {c : Candidate}
    (h : lookupCandidate rt candidates idx = some (some (Looked.candidate c))) :
    c ∈ candidates := by
  cases idx with
  | undefined => exact lookupKey_candidate (Option.some.inj h)
  | null => exact lookupKey_candidate (Option.some.inj h)
  | bool b => exact lookupKey_candidate (Option.some.inj h)
  | infinity n => exact lookupKey_candidate (Option.some.inj h)
  | str s => exact lookupKey_candidate (Option.some.inj h)
  | object p =>
    cases p with
    | none => cases h
    | some s => exact lookupKey_candidate (Option.some.inj h)
  | num i =>
    have h' := Option.some.inj h
    cases hc : candidateAt candidates i with
    | none => rw [hc] at h'; cases h'
    | some d =>
      rw [hc] at h'
      cases h'
      obtain ⟨n, _, _, hn⟩ := candidateAt_some hc
      exact List.getElem?_mem hn

theorem enrichedMatches_single (rt : Runtime) (candidates : List Candidate) (i : Nat)
    (c : Candidate) (q : ℚ) (reason : JsVal) (extras : List (String × JsVal))
    (hc : candidates[i]? = some c) (hq : 50 ≤ q) :
    enrichedMatches rt candidates [some ⟨JsVal.num (i : ℚ), JsVal.num q, reason, extras⟩] =
      some [entryOf c (min 100 q) reason] := by
  have hmax : max 0 q = q := max_eq_right (by linarith)
  have hcon : contribution rt candidates
      (some ⟨JsVal.num (i : ℚ), JsVal.num q, reason, extras⟩) =
      some (some (entryOf c (min 100 q) reason)) := by
    simp [contribution, keepEntry, toNumber, JsNum.ge, hq, enrich, lookupCandidate_natCast, hc,
      Looked.truthy, Looked.id, Looked.name, Looked.bio, Looked.interests, Looked.imageUrl,
      mathMin, mathMax, hmax, entryOf]
  rw [enrichedMatches_eq, inReplyOrder_cons_keep _ _ _ _ _ hcon]
  simp [inReplyOrder, sortMatches, insertSorted]

theorem digitChar_isDigit (k : Nat) (h : k < 10) : (Nat.digitChar k).isDigit = true := by
  interval_cases k <;> rfl

theorem toDigitsCore_isDigit : ∀ (fuel n : Nat) (ds : List Char),
    (∀ c ∈ ds, c.isDigit = true) → ∀ c ∈ Nat.toDigitsCore 10 fuel n ds, c.isDigit = true := by
  intro fuel
  induction fuel with
  | zero =>
    intro n ds hds c hc
    simp only [Nat.toDigitsCore] at hc
    exact hds c hc
  | succ f ih =>
    intro n ds hds c hc
    simp only [Nat.toDigitsCore] at hc
    have hd : ∀ c ∈ Nat.digitChar (n % 10) :: ds, c.isDigit = true := by
      intro c hc
      rcases List.mem_cons.mp hc with rfl | hc
      · exact digitChar_isDigit _ (Nat.mod_lt _ (by norm_num))
      · exact hds c hc
    split at hc
    · exact hd c hc
    · exact ih _ _ hd c hc

theorem toString_nat_isDigit (n : Nat) : ∀ c ∈ (toString n).toList, c.isDigit = true := by
  intro c hc
  have : (toString n).toList = Nat.toDigits 10 n := rfl
  rw [this] at hc
  exact toDigitsCore_isDigit _ _ [] (by simp) c hc

theorem elementAtKey_none_of_not_digits (key : String)
    (h : ∃ c ∈ key.toList, c.isDigit = false) :
    ∀ (start : Nat) (l : List Candidate), elementAtKey start key l = none := by
  intro start l
  induction l generalizing start with
  | nil => rfl
  | cons d rest ih =>
    unfold elementAtKey
    have hd : toString start ≠ key := by
      intro heq
      obtain ⟨c, hc, hnd⟩ := h
      rw [← heq] at hc
      rw [toString_nat_isDigit start c hc] at hnd
      cases hnd
    rw [if_neg hd]
    exact ih (start + 1)

theorem lookupKey_length (rt : Runtime) (candidates : List Candidate) :
    lookupKey rt candidates "length" = some (Looked.length candidates.length) := by
  unfold lookupKey
  rw [elementAtKey_none_of_not_digits "length" ⟨'l', by decide, by decide⟩]
  simp

theorem lookupKey_undefined_not_candidate (rt : Runtime) (candidates : List Candidate)
    (c : Candidate) : lookupKey rt candidates "undefined" ≠ some (Looked.candidate c) := by
  unfold lookupKey
  rw [elementAtKey_none_of_not_digits "undefined" ⟨'u', by decide, by decide⟩]
  simp only
  split
  · intro h; cases h
  · cases rt.inherited "undefined" <;> intro h <;> cases h

theorem toNumber_isSome (rt : Runtime) {v : JsVal} (h : v ≠ JsVal.object none) :
    ∃ x, toNumber rt v = some x := by
  cases v with
  | object p =>
    cases p with
    | none => exact absurd rfl h
    | some s => exact ⟨_, rfl⟩
  | _ => exact ⟨_, rfl⟩

theorem lookupCandidate_isSome (rt : Runtime) (candidates : List Candidate) {v : JsVal}
    (h : v ≠ JsVal.object none) : ∃ l, lookupCandidate rt candidates v = some l := by
  cases v with
  | object p =>
    cases p with
    | none => exact absurd rfl h
    | some s => exact ⟨_, rfl⟩
  | _ => exact ⟨_, rfl⟩

theorem contribution_isSome (rt : Runtime) (candidates : List Candidate) (r : MatchCandidate)
    (hs : r.score ≠ JsVal.object none) (hi : r.candidateIndex ≠ JsVal.object none) :
    ∃ c, contribution rt candidates (some r) = some c := by
  obtain ⟨x, hx⟩ := toNumber_isSome rt hs
  obtain ⟨l, hl⟩ := lookupCandidate_isSome rt candidates hi
  unfold contribution keepEntry enrich
  simp only [hx, hl]
  cases x.ge (JsNum.fin 50) && decide (r.candidateIndex ≠ JsVal.undefined) with
  | false => exact ⟨_, rfl⟩
  | true =>
    cases l with
    | none => exact ⟨_, rfl⟩
    | some looked =>
      cases hlt : looked.truthy with
      | false => exact ⟨none, by simp [hlt]⟩
      | true =>
        exact ⟨some
          { userId := looked.id
            name := looked.name
            bio := looked.bio
            interests := looked.interests
            imageUrl := looked.imageUrl
            matchScore := mathMin (JsNum.fin 100) (mathMax (JsNum.fin 0) x)
            matchReason := valOr r.reason (JsVal.str "Similar interests and study goals") },
          by simp [hlt]⟩

/-- The chain throws for no reply whose elements are entries with a score and
an index that convert to a primitive: numbers, strings, booleans, `null`,
absent properties, and arrays or objects without a property `toString` of
their own. -/
theorem enrichedMatches_total (rt : Runtime) (candidates : List Candidate)
    (ms : List (Option MatchCandidate))
    (h : ∀ m ∈ ms, ∃ r, m = some r ∧ r.score ≠ JsVal.object none ∧
      r.candidateIndex ≠ JsVal.object none) :
    ∃ out, enrichedMatches rt candidates ms = some out := by
  have hl : ∃ listed, inReplyOrder rt candidates ms = some listed := by
    induction ms with
    | nil => exact ⟨[], rfl⟩
    | cons m rest ih =>
      obtain ⟨listed, hlisted⟩ := ih (fun m hm => h m (List.mem_cons_of_mem _ hm))
      obtain ⟨r, rfl, hs, hi⟩ := h m (List.mem_cons_self _ _)
      obtain ⟨c, hc⟩ := contribution_isSome rt candidates r hs hi
      cases c with
      | none => exact ⟨listed, by rw [inReplyOrder, hc, hlisted]⟩
      | some e => exact ⟨e :: listed, by rw [inReplyOrder, hc, hlisted]⟩
  obtain ⟨listed, hlisted⟩ := hl
  exact ⟨(sortMatches listed).take 20, by rw [enrichedMatches_eq, hlisted]; rfl⟩

/-- C1: every entry of the list that `findStudyBuddyMatches` returns carries a
numeric `matchScore` between 0 and 100, both as a statement about the reconciled
list of any pool and parsed reply, whatever JSON values the reply holds, and
about any successful call; an entry with a valid index and model score 137
comes back with `matchScore` 100; and the reconciled list exists for every reply
whose elements are entries with a score and an index that convert to a
primitive. -/
theorem matchScore_in_range :
    (∀ (rt : Runtime) (candidates : List Candidate) (ms : List (Option MatchCandidate))
        (out : List EnrichedMatch),
      enrichedMatches rt candidates ms = some out → ∀ e ∈ out, ScoreWithin 0 100 e) ∧
    (∀ (env : MatchEnv) (request : MatchRequest) (out : List EnrichedMatch),
      findStudyBuddyMatches env request = Except.ok out → ∀ e ∈ out, ScoreWithin 0 100 e) ∧
    (∀ (rt : Runtime) (candidates : List Candidate) (i : Nat) (c : Candidate) (reason : JsVal)
        (extras : List (String × JsVal)), candidates[i]? = some c →
      enrichedMatches rt candidates [some ⟨JsVal.num (i : ℚ), JsVal.num 137, reason, extras⟩] =
        some [entryOf c 100 reason]) ∧
    (∀ (rt : Runtime) (candidates : List Candidate) (ms : List (Option MatchCandidate)),
      (∀ m ∈ ms, ∃ r, m = some r ∧ r.score ≠ JsVal.object none ∧
        r.candidateIndex ≠ JsVal.object none) →
      ∃ out, enrichedMatches rt candidates ms = some out) := by
  have key : ∀ (rt : Runtime) (candidates : List Candidate)
      (ms : List (Option MatchCandidate)) (out : List EnrichedMatch),
      enrichedMatches rt candidates ms = some out → ∀ e ∈ out, ScoreWithin 0 100 e := by
    intro rt candidates ms out h e he
    obtain ⟨listed, hl, hel⟩ := mem_enrichedMatches h he
    obtain ⟨q, hq, h50, h100⟩ := listed_score hl hel
    exact ⟨q, hq, by linarith, h100⟩
  refine ⟨key, ?_, ?_, enrichedMatches_total⟩
  · intro env request out h e he
    obtain ⟨uid, docs, _, _, rfl | ⟨ms, hms⟩⟩ := returned_matches h
    · cases he
    · exact key _ _ _ _ hms e he
  · intro rt candidates i c reason extras hc
    have := enrichedMatches_single rt candidates i c 137 reason extras hc (by norm_num)
    rw [this]
    norm_num

/-- Witness of C1 on the sample pool: a score of 137 for Bob, once as a number
and once as the string `137`, and one of 75 for Alice. -/
theorem matchScore_in_range_witness :
    ScoreWithin 0 100 (entryOf (toCandidate docBob) 100 JsVal.undefined) ∧
    enrichedMatches sampleRuntime samplePool
        [some ⟨JsVal.num 1, JsVal.str "137", JsVal.undefined, []⟩] =
      some [entryOf (toCandidate docBob) 100 JsVal.undefined] ∧
    ScoreWithin 0 100 (entryOf (toCandidate docAlice) 75 (JsVal.str "Both like math")) ∧
    enrichedMatches sampleRuntime samplePool
        [some ⟨JsVal.num ((1 : Nat) : ℚ), JsVal.num 137, JsVal.undefined,
          [("name", JsVal.str "Bobby")]⟩] =
      some [entryOf (toCandidate docBob) 100 JsVal.undefined] :=
  ⟨matchScore_in_range.1 sampleRuntime samplePool
      [some ⟨JsVal.num 1, JsVal.str "137", JsVal.undefined, []⟩]
      [entryOf (toCandidate docBob) 100 JsVal.undefined] (by with_unfolding_all decide) _
      (List.mem_singleton_self _),
   by with_unfolding_all decide,
   matchScore_in_range.2.1
     (envWith sampleDocs [some ⟨JsVal.num 0, JsVal.num 75, JsVal.str "Both like math", []⟩])
     sampleRequest [entryOf (toCandidate docAlice) 75 (JsVal.str "Both like math")]
     (by with_unfolding_all rfl) _ (List.mem_singleton_self _),
   matchScore_in_range.2.2.1 sampleRuntime samplePool 1 (toCandidate docBob) JsVal.undefined
     [("name", JsVal.str "Bobby")] (by decide)⟩

/-- C2: an entry whose score is below 50 produces no output entry, whatever its
index: every output entry stems from a model entry whose score converts to a
number of at least 50, and deleting an entry whose score converts to a number
that is not at least 50 leaves the output unchanged. For a pool of three and
the reply (index 0, score 90), (index 2, score 40) the output holds the
candidate at index 0 only. -/
theorem below_fifty_dropped :
    (∀ (rt : Runtime) (candidates : List Candidate) (ms : List (Option MatchCandidate))
        (out : List EnrichedMatch),
      enrichedMatches rt candidates ms = some out →
      ∀ e ∈ out,
        ∃ m, some m ∈ ms ∧
          (∃ x, toNumber rt m.score = some x ∧ x.ge (JsNum.fin 50) = true) ∧
          enrich rt candidates m = some (some e)) ∧
    (∀ (rt : Runtime) (candidates : List Candidate) (pre post : List (Option MatchCandidate))
        (m : MatchCandidate) (x : JsNum),
      toNumber rt m.score = some x → x.ge (JsNum.fin 50) = false →
      enrichedMatches rt candidates (pre ++ some m :: post) =
        enrichedMatches rt candidates (pre ++ post)) ∧
    (∀ (rt : Runtime) (candidates : List Candidate) (pre post : List (Option MatchCandidate))
        (m : MatchCandidate) (q : ℚ), m.score = JsVal.num q → q < 50 →
      enrichedMatches rt candidates (pre ++ some m :: post) =
        enrichedMatches rt candidates (pre ++ post)) ∧
    (∀ (rt : Runtime) (c0 c1 c2 : Candidate) (r0 r2 : JsVal) (x0 x2 : List (String × JsVal)),
      enrichedMatches rt [c0, c1, c2]
          [some ⟨JsVal.num 0, JsVal.num 90, r0, x0⟩, some ⟨JsVal.num 2, JsVal.num 40, r2, x2⟩] =
        some [entryOf c0 90 r0]) := by
  have drop : ∀ (rt : Runtime) (candidates : List Candidate)
      (pre post : List (Option MatchCandidate)) (m : MatchCandidate) (x : JsNum),
      toNumber rt m.score = some x → x.ge (JsNum.fin 50) = false →
      enrichedMatches rt candidates (pre ++ some m :: post) =
        enrichedMatches rt candidates (pre ++ post) := by
    intro rt candidates pre post m x hx hge
    apply enrichedMatches_remove
    simp [contribution, keepEntry, hx, hge]
  have dropNum : ∀ (rt : Runtime) (candidates : List Candidate)
      (pre post : List (Option MatchCandidate)) (m : MatchCandidate) (q : ℚ),
      m.score = JsVal.num q → q < 50 →
      enrichedMatches rt candidates (pre ++ some m :: post) =
        enrichedMatches rt candidates (pre ++ post) := by
    intro rt candidates pre post m q hq hlt
    refine drop rt candidates pre post m (JsNum.fin q) (by rw [hq]; rfl) ?_
    simp [JsNum.ge, hlt]
  refine ⟨?_, drop, dropNum, ?_⟩
  · intro rt candidates ms out h e he
    obtain ⟨listed, hl, hel⟩ := mem_enrichedMatches h he
    obtain ⟨m, hm, hc⟩ := (mem_inReplyOrder hl).mp hel
    obtain ⟨r, rfl, hk, hen⟩ := contribution_some hc
    obtain ⟨x, hx, hge, _⟩ := keepEntry_true hk
    exact ⟨r, hm, ⟨x, hx, hge⟩, hen⟩
  · intro rt c0 c1 c2 r0 r2 x0 x2
    have h := dropNum rt [c0, c1, c2] [some ⟨JsVal.num 0, JsVal.num 90, r0, x0⟩] []
      ⟨JsVal.num 2, JsVal.num 40, r2, x2⟩ 40 rfl (by norm_num)
    have h1 := enrichedMatches_single rt [c0, c1, c2] 0 c0 90 r0 x0 rfl (by norm_num)
    simp only [List.singleton_append, List.append_nil, Nat.cast_zero] at h h1
    rw [h, h1]
    norm_num

/-- Witness of C2 on the sample pool: a numeric score 40 and the string score
`40` are both dropped. -/
theorem below_fifty_dropped_witness :
    (∃ m, some m ∈ [some mAlice90, some mCarol90] ∧
      (∃ x, toNumber sampleRuntime m.score = some x ∧ x.ge (JsNum.fin 50) = true) ∧
        enrich sampleRuntime samplePool m =
          some (some (entryOf (toCandidate docAlice) 90 JsVal.undefined))) ∧
    enrichedMatches sampleRuntime samplePool
        ([some mAlice90] ++ some ⟨JsVal.num 2, JsVal.str "40", JsVal.undefined, []⟩ :: []) =
      enrichedMatches sampleRuntime samplePool ([some mAlice90] ++ []) ∧
    enrichedMatches sampleRuntime samplePool
        ([some mAlice90] ++ some ⟨JsVal.num 2, JsVal.num 40, JsVal.undefined, []⟩ :: []) =
      enrichedMatches sampleRuntime samplePool ([some mAlice90] ++ []) :=
  ⟨below_fifty_dropped.1 sampleRuntime samplePool [some mAlice90, some mCarol90]
      [entryOf (toCandidate docAlice) 90 JsVal.undefined,
       entryOf (toCandidate docCarol) 90 JsVal.undefined]
      (by with_unfolding_all decide) _ (List.mem_cons_self _ _),
   below_fifty_dropped.2.1 sampleRuntime samplePool [some mAlice90] []
      ⟨JsVal.num 2, JsVal.str "40", JsVal.undefined, []⟩ (JsNum.fin 40)
      (by with_unfolding_all decide) (by with_unfolding_all decide),
   below_fifty_dropped.2.2.1 sampleRuntime samplePool [some mAlice90] []
      ⟨JsVal.num 2, JsVal.num 40, JsVal.undefined, []⟩ 40 rfl (by norm_num)⟩

theorem lookup_none_of_plain_invalid {rt : Runtime} {candidates : List Candidate}
    {idx : JsVal} (hnum : ∃ q : ℚ, idx = JsVal.num q) (hbad : ¬ ValidIndex candidates idx) :
    lookupCandidate rt candidates idx = some none := by
  obtain ⟨q, rfl⟩ := hnum
  cases hc : candidateAt candidates q with
  | none => simp [lookupCandidate, hc]
  | some c =>
    obtain ⟨n, hn, hlt, _⟩ := candidateAt_some hc
    exact absurd ⟨n, by rw [hn], hlt⟩ hbad

theorem contribution_none_of_plain_invalid {rt : Runtime} {candidates : List Candidate}
    {m : MatchCandidate} (hplain : PlainIndex m.candidateIndex)
    (hbad : ¬ ValidIndex candidates m.candidateIndex)
    (hscore : toNumber rt m.score ≠ none) :
    contribution rt candidates (some m) = some none := by
  cases hx : toNumber rt m.score with
  | none => exact absurd hx hscore
  | some x =>
    have hke : keepEntry rt m =
        some (x.ge (JsNum.fin 50) && decide (m.candidateIndex ≠ JsVal.undefined)) := by
      unfold keepEntry
      rw [hx]
    unfold contribution
    simp only [hke]
    rcases hplain with hu | hnum
    · have : (x.ge (JsNum.fin 50) && decide (m.candidateIndex ≠ JsVal.undefined)) = false := by
        simp [hu]
      rw [this]
    · have hl : lookupCandidate rt candidates m.candidateIndex = some none :=
        lookup_none_of_plain_invalid hnum hbad
      cases (x.ge (JsNum.fin 50) && decide (m.candidateIndex ≠ JsVal.undefined)) with
      | false => rfl
      | true =>
        simp only
        unfold enrich
        rw [hl]

theorem enrichedMatches_null (rt : Runtime) (candidates : List Candidate)
    (pre post : List (Option MatchCandidate)) :
    enrichedMatches rt candidates (pre ++ none :: post) = none := by
  rw [enrichedMatches_eq, inReplyOrder_append,
    inReplyOrder_cons_throw _ _ _ _ (by rfl : contribution rt candidates none = none)]
  cases inReplyOrder rt candidates pre <;> rfl

/-- C3 fails in the code for an index that is no number and for a `null`
element. What holds: an entry whose `candidateIndex` is absent, or is a number
that names no position of the pool, produces no output entry, and the call
returns what it returns without that entry. What fails: the index `length`
names no position, yet `candidates["length"]` is the number 3, which passes
`!candidate`, and an entry without profile fields is returned; and a `null`
element makes `m.score` throw, so the whole call fails with `internal`. -/
theorem bad_index_handling :
    (∀ (rt : Runtime) (candidates : List Candidate) (pre post : List (Option MatchCandidate))
        (m : MatchCandidate),
      PlainIndex m.candidateIndex → ¬ ValidIndex candidates m.candidateIndex →
      toNumber rt m.score ≠ none →
      enrichedMatches rt candidates (pre ++ some m :: post) =
        enrichedMatches rt candidates (pre ++ post)) ∧
    (∀ (env : MatchEnv) (request : MatchRequest) (uid : String) (interests : List String)
        (docs : List Doc) (text : String) (pre post : List (Option MatchCandidate))
        (m : MatchCandidate) (out : List EnrichedMatch),
      request.auth = some uid →
      request.data.interests = InterestsField.array interests →
      interests ≠ [] →
      env.usersSnapshot = some docs →
      gatherCandidates uid docs ≠ [] →
      env.generateContent
        (matchPrompt interests request.data.bio (gatherCandidates uid docs)) = some text →
      env.jsonParse (cleanedText text) = some ⟨some (pre ++ some m :: post)⟩ →
      PlainIndex m.candidateIndex →
      ¬ ValidIndex (gatherCandidates uid docs) m.candidateIndex →
      toNumber env.runtime m.score ≠ none →
      enrichedMatches env.runtime (gatherCandidates uid docs) (pre ++ post) = some out →
      findStudyBuddyMatches env request = Except.ok out) ∧
    (∀ rt : Runtime,
      enrichedMatches rt samplePool [some mLength90, some mBob60] =
        some [entryOfLength 90, entryOf (toCandidate docBob) 60 JsVal.undefined] ∧
      enrichedMatches rt samplePool [some mBob60] =
        some [entryOf (toCandidate docBob) 60 JsVal.undefined]) ∧
    (∀ (rt : Runtime) (candidates : List Candidate) (pre post : List (Option MatchCandidate)),
      enrichedMatches rt candidates (pre ++ none :: post) = none) ∧
    findStudyBuddyMatches (envWith sampleDocs [none, some mBob60]) sampleRequest =
      Except.error ⟨"internal", "An error occurred during matchmaking"⟩ ∧
    findStudyBuddyMatches (envWith sampleDocs [some mBob60]) sampleRequest =
      Except.ok [entryOf (toCandidate docBob) 60 JsVal.undefined] := by
  refine ⟨?_, ?_, ?_, enrichedMatches_null, by with_unfolding_all rfl,
    by with_unfolding_all rfl⟩
  · intro rt candidates pre post m hplain hbad hscore
    exact enrichedMatches_remove rt candidates (some m) pre post
      (contribution_none_of_plain_invalid hplain hbad hscore)
  · intro env request uid interests docs text pre post m out hauth hint hne hdocs hpool hgen
      hparse hplain hbad hscore hout
    rw [findStudyBuddyMatches_run env request uid interests docs text _ hauth hint hne hdocs
      hpool hgen hparse]
    rw [enrichedMatches_remove _ _ (some m) pre post
      (contribution_none_of_plain_invalid hplain hbad hscore), hout]
  · intro rt
    constructor
    · with_unfolding_all rfl
    · with_unfolding_all rfl

theorem not_validIndex_undefined (candidates : List Candidate) :
    ¬ ValidIndex candidates JsVal.undefined := by
  rintro ⟨n, hn, _⟩
  cases hn

theorem not_validIndex_of_le (candidates : List Candidate) (k : Nat)
    (h : candidates.length ≤ k) : ¬ ValidIndex candidates (JsVal.num (k : ℚ)) := by
  rintro ⟨n, hn, hlt⟩
  have h1 : (k : ℚ) = n := by
    cases hn
    rfl
  have : k = n := by exact_mod_cast h1
  omega

/-- Witness of C3 for the part that holds: an entry without index and an
entry with index 3 in a pool of three are skipped. -/
theorem bad_index_handling_witness :
    enrichedMatches sampleRuntime samplePool ([some mAlice90] ++ some mNoIndex :: [some mBob60]) =
      enrichedMatches sampleRuntime samplePool ([some mAlice90] ++ [some mBob60]) ∧
    findStudyBuddyMatches (envWith sampleDocs ([] ++ some mIndexThree :: [some mBob60]))
        sampleRequest =
      Except.ok [entryOf (toCandidate docBob) 60 JsVal.undefined] :=
  ⟨bad_index_handling.1 sampleRuntime samplePool [some mAlice90] [some mBob60] mNoIndex
      (Or.inl rfl) (not_validIndex_undefined samplePool) (by decide),
   bad_index_handling.2.1 (envWith sampleDocs ([] ++ some mIndexThree :: [some mBob60]))
      sampleRequest "me" ["math"] sampleDocs "reply" [] [some mBob60] mIndexThree
      [entryOf (toCandidate docBob) 60 JsVal.undefined]
      rfl rfl (by decide) rfl (by decide) rfl rfl (Or.inr ⟨_, rfl⟩)
      (not_validIndex_of_le _ 3 (by decide)) (by decide) (by with_unfolding_all decide)⟩

/-- C4: the returned list is sorted non-increasing by `matchScore`: the score of
every entry is a number at least as large as the score of every later entry, in
particular of the entry right after it; for the reconciled list of any pool and
parsed reply, and for the result of any successful call. -/
theorem matches_sorted_desc :
    (∀ (rt : Runtime) (candidates : List Candidate) (ms : List (Option MatchCandidate))
        (out : List EnrichedMatch),
      enrichedMatches rt candidates ms = some out →
        out.Pairwise ScoreGe ∧ out.Chain' ScoreGe) ∧
    (∀ (env : MatchEnv) (request : MatchRequest) (out : List EnrichedMatch),
      findStudyBuddyMatches env request = Except.ok out →
        out.Pairwise ScoreGe ∧ out.Chain' ScoreGe) := by
  have key : ∀ (rt : Runtime) (candidates : List Candidate)
      (ms : List (Option MatchCandidate)) (out : List EnrichedMatch),
      enrichedMatches rt candidates ms = some out →
        out.Pairwise ScoreGe ∧ out.Chain' ScoreGe := fun rt candidates ms out h =>
    ⟨enrichedMatches_sorted h, (enrichedMatches_sorted h).chain'⟩
  refine ⟨key, ?_⟩
  intro env request out h
  obtain ⟨uid, docs, _, _, rfl | ⟨ms, hms⟩⟩ := returned_matches h
  · exact ⟨List.Pairwise.nil, List.chain'_nil⟩
  · exact key _ _ _ _ hms

/-- Witness of C4: a reply listing Bob at 60 before Alice at 90 comes back with
Alice first. -/
theorem matches_sorted_desc_witness :
    findStudyBuddyMatches (envWith sampleDocs [some mBob60, some mAlice90]) sampleRequest =
      Except.ok [entryOf (toCandidate docAlice) 90 JsVal.undefined,
        entryOf (toCandidate docBob) 60 JsVal.undefined] ∧
    [entryOf (toCandidate docAlice) 90 JsVal.undefined,
      entryOf (toCandidate docBob) 60 JsVal.undefined].Pairwise ScoreGe :=
  ⟨by with_unfolding_all rfl,
   (matches_sorted_desc.2 (envWith sampleDocs [some mBob60, some mAlice90]) sampleRequest
      [entryOf (toCandidate docAlice) 90 JsVal.undefined,
        entryOf (toCandidate docBob) 60 JsVal.undefined]
      (by with_unfolding_all rfl)).1⟩

/-- C5: the returned list has at most 20 entries, however many the reply
holds; for the reconciled list of any pool and parsed reply, and for the result
of any successful call. -/
theorem matches_at_most_twenty :
    (∀ (rt : Runtime) (candidates : List Candidate) (ms : List (Option MatchCandidate))
        (out : List EnrichedMatch),
      enrichedMatches rt candidates ms = some out → out.length ≤ 20) ∧
    (∀ (env : MatchEnv) (request : MatchRequest) (out : List EnrichedMatch),
      findStudyBuddyMatches env request = Except.ok out → out.length ≤ 20) := by
  have key : ∀ (rt : Runtime) (candidates : List Candidate)
      (ms : List (Option MatchCandidate)) (out : List EnrichedMatch),
      enrichedMatches rt candidates ms = some out → out.length ≤ 20 := by
    intro rt candidates ms out h
    obtain ⟨listed, _, rfl⟩ := enrichedMatches_some h
    exact List.length_take_le _ _
  refine ⟨key, ?_⟩
  intro env request out h
  obtain ⟨uid, docs, _, _, rfl | ⟨ms, hms⟩⟩ := returned_matches h
  · simp
  · exact key _ _ _ _ hms

/-- Witness of C5: a reply that names Alice 25 times with score 90. -/
theorem matches_at_most_twenty_witness :
    enrichedMatches sampleRuntime samplePool (List.replicate 25 (some mAlice90)) =
      some (List.replicate 20 (entryOf (toCandidate docAlice) 90 JsVal.undefined)) ∧
    (List.replicate 20 (entryOf (toCandidate docAlice) 90 JsVal.undefined)).length ≤ 20 :=
  ⟨by with_unfolding_all decide,
   matches_at_most_twenty.2 (envWith sampleDocs (List.replicate 25 (some mAlice90)))
      sampleRequest
      (List.replicate 20 (entryOf (toCandidate docAlice) 90 JsVal.undefined))
      (by with_unfolding_all rfl)⟩

theorem withScore_insertSorted (s : JsNum) (a : EnrichedMatch) (l : List EnrichedMatch) :
    withScore s (insertSorted a l) = withScore s (a :: l) := by
  induction l with
  | nil => rfl
  | cons b rest ih =>
    unfold insertSorted
    split
    · rename_i hgt
      have hne : a.matchScore ≠ b.matchScore := by
        intro heq
        unfold comparator at hgt
        rw [heq] at hgt
        cases hb : b.matchScore <;> simp [hb, JsNum.sub, JsNum.gt] at hgt
      unfold withScore at *
      rw [List.filter_cons, ih]
      by_cases ha : a.matchScore = s <;> by_cases hb : b.matchScore = s
      · exact absurd (ha.trans hb.symm) hne
      · simp [List.filter_cons, ha, hb]
      · simp [List.filter_cons, ha, hb]
      · simp [List.filter_cons, ha, hb]
    · rfl

theorem withScore_sortMatches (s : JsNum) (l : List EnrichedMatch) :
    withScore s (sortMatches l) = withScore s l := by
  induction l with
  | nil => rfl
  | cons a rest ih =>
    unfold sortMatches
    rw [withScore_insertSorted]
    unfold withScore at *
    rw [List.filter_cons, List.filter_cons, ih]

/-- C6 (as the code has it): entries with equal `matchScore` appear in the
order in which the model listed them. For every score `s`, the output entries
with score `s` are an initial segment of the reply's contributed entries with
score `s`, taken in reply order. -/
theorem ties_in_reply_order (rt : Runtime) (candidates : List Candidate)
    (ms : List (Option MatchCandidate)) (s : JsNum) (out : List EnrichedMatch)
    (h : enrichedMatches rt candidates ms = some out) :
    ∃ listed, inReplyOrder rt candidates ms = some listed ∧
      withScore s out <+: withScore s listed := by
  obtain ⟨listed, hl, rfl⟩ := enrichedMatches_some h
  refine ⟨listed, hl, ?_⟩
  rw [← withScore_sortMatches s listed]
  unfold withScore
  exact List.IsPrefix.filter _ (List.take_prefix _ _)

/-- Witness of C6 as amended: Bob and Alice both at 80, Bob listed first. -/
theorem ties_in_reply_order_witness :
    ∃ listed, inReplyOrder sampleRuntime samplePool [some mBob80, some mAlice80] = some listed ∧
      withScore (JsNum.fin 80)
          [entryOf (toCandidate docBob) 80 JsVal.undefined,
           entryOf (toCandidate docAlice) 80 (JsVal.str "Shared interest in math")] <+:
        withScore (JsNum.fin 80) listed :=
  ties_in_reply_order sampleRuntime samplePool [some mBob80, some mAlice80] (JsNum.fin 80)
    [entryOf (toCandidate docBob) 80 JsVal.undefined,
     entryOf (toCandidate docAlice) 80 (JsVal.str "Shared interest in math")]
    (by with_unfolding_all decide)

/-- C6 fails as stated: for the sample pool (Alice at position 0, Bob at
position 1) and a reply that lists Bob before Alice, both with score 80, the
output has Bob before Alice. -/
theorem ties_in_pool_order_counterexample :
    enrichedMatches sampleRuntime samplePool [some mBob80, some mAlice80] =
      some [entryOf (toCandidate docBob) 80 JsVal.undefined,
       entryOf (toCandidate docAlice) 80 (JsVal.str "Shared interest in math")] ∧
    poolPosition samplePool (some (toCandidate docBob).id) = 1 ∧
    poolPosition samplePool (some (toCandidate docAlice).id) = 0 ∧
    ¬ TiesInPoolOrder samplePool
        [entryOf (toCandidate docBob) 80 JsVal.undefined,
         entryOf (toCandidate docAlice) 80 (JsVal.str "Shared interest in math")] := by
  refine ⟨by with_unfolding_all decide, by decide, by decide, ?_⟩
  intro hp
  have := List.rel_of_pairwise_cons hp (List.mem_singleton_self _) rfl
  revert this
  decide

theorem gatherCandidates_eq (uid : String) (docs : List Doc) :
    gatherCandidates uid docs =
      (docs.filter (fun d => decide (d.id ≠ uid))).map toCandidate := by
  induction docs with
  | nil => rfl
  | cons d rest ih =>
    unfold gatherCandidates
    by_cases h : d.id = uid
    · simp [h, List.filter_cons, ih]
    · simp [h, List.filter_cons, ih]

theorem gatherCandidates_id_ne (uid : String) (docs : List Doc) :
    ∀ c ∈ gatherCandidates uid docs, c.id ≠ uid := by
  intro c hc
  rw [gatherCandidates_eq, List.mem_map] at hc
  obtain ⟨d, hd, rfl⟩ := hc
  simpa using (List.mem_filter.mp hd).2

/-- The `userId` of an entry is the id of a pool candidate or absent. -/
theorem userId_of_listed {rt : Runtime} {candidates : List Candidate}
    {ms : List (Option MatchCandidate)} {listed : List EnrichedMatch}
    (h : inReplyOrder rt candidates ms = some listed) {e : EnrichedMatch} (he : e ∈ listed) :
    e.userId = none ∨ ∃ c ∈ candidates, e.userId = some c.id := by
  obtain ⟨m, _, hc⟩ := (mem_inReplyOrder h).mp he
  obtain ⟨r, _, _, hen⟩ := contribution_some hc
  obtain ⟨looked, x, hl, _, _, rfl⟩ := enrich_some hen
  cases looked with
  | candidate c => exact Or.inr ⟨c, lookupCandidate_candidate hl, rfl⟩
  | length n => exact Or.inl rfl
  | inherited nm => exact Or.inl rfl

/-- C9: the pool that `findStudyBuddyMatches` builds is the stored users in
enumeration order with the caller's own record removed, each read with its
defaults; no pool candidate and no entry of a returned list carries the caller's
id, whatever the store holds and whatever the model replies. -/
theorem caller_excluded :
    (∀ (uid : String) (docs : List Doc),
      gatherCandidates uid docs =
        (docs.filter (fun d => decide (d.id ≠ uid))).map toCandidate) ∧
    (∀ (uid : String) (docs : List Doc), ∀ c ∈ gatherCandidates uid docs, c.id ≠ uid) ∧
    (∀ (env : MatchEnv) (request : MatchRequest) (uid : String) (out : List EnrichedMatch),
      request.auth = some uid → findStudyBuddyMatches env request = Except.ok out →
      ∀ e ∈ out, e.userId ≠ some uid) := by
  refine ⟨gatherCandidates_eq, gatherCandidates_id_ne, ?_⟩
  intro env request uid out hauth h e he
  obtain ⟨uid', docs, hauth', _, rfl | ⟨ms, hms⟩⟩ := returned_matches h
  · cases he
  · rw [hauth] at hauth'
    cases hauth'
    obtain ⟨listed, hl, hel⟩ := mem_enrichedMatches hms he
    rcases userId_of_listed hl hel with hn | ⟨c, hc, hid⟩
    · rw [hn]
      exact fun hx => by cases hx
    · rw [hid]
      intro hx
      exact gatherCandidates_id_ne uid docs c hc (Option.some.inj hx)

/-- Witness of C9: the caller `"me"` stands second in the snapshot; the pool
skips that record and the returned entry is Bob's. -/
theorem caller_excluded_witness :
    gatherCandidates "me" sampleDocs = samplePool ∧
    (toCandidate docBob).id ≠ "me" ∧
    (entryOf (toCandidate docBob) 60 JsVal.undefined).userId ≠ some "me" :=
  ⟨by decide,
   caller_excluded.2.1 "me" sampleDocs (toCandidate docBob) (by decide),
   caller_excluded.2.2 (envWith sampleDocs [some mBobEcho]) sampleRequest "me"
     [entryOf (toCandidate docBob) 60 JsVal.undefined] rfl (by with_unfolding_all rfl) _
     (List.mem_singleton_self _)⟩

theorem userId_resolved {rt : Runtime} {candidates : List Candidate}
    {m : Option MatchCandidate} {e : EnrichedMatch} {u : String}
    (hc : contribution rt candidates m = some (some e)) (hu : e.userId = some u) :
    ∃ c, resolvedCandidate rt candidates m = some c ∧ c ∈ candidates ∧ c.id = u := by
  obtain ⟨r, rfl, _, hen⟩ := contribution_some hc
  obtain ⟨looked, x, hl, _, _, rfl⟩ := enrich_some hen
  cases looked with
  | candidate c =>
    refine ⟨c, ?_, lookupCandidate_candidate hl, ?_⟩
    · simp [resolvedCandidate, hl]
    · simpa [Looked.id] using hu
  | length n => simp [Looked.id] at hu
  | inherited nm => simp [Looked.id] at hu

theorem listed_userIds_nodup (rt : Runtime) (candidates : List Candidate)
    (hids : (candidates.map (fun c => c.id)).Nodup) (ms : List (Option MatchCandidate)) :
    ∀ listed, inReplyOrder rt candidates ms = some listed →
      (resolvedCandidates rt candidates ms).Nodup → (userIds listed).Nodup := by
  induction ms with
  | nil =>
    intro listed h _
    simp only [inReplyOrder, Option.some.injEq] at h
    subst h
    simp [userIds]
  | cons m rest ih =>
    intro listed h hres
    have hrest : (resolvedCandidates rt candidates rest).Nodup :=
      List.Nodup.sublist (List.Sublist.filterMap _ (List.sublist_cons_self m rest)) hres
    cases hc : contribution rt candidates m with
    | none => rw [inReplyOrder_cons_throw _ _ _ _ hc] at h; cases h
    | some o =>
      cases o with
      | none =>
        rw [inReplyOrder_cons_skip _ _ _ _ hc] at h
        exact ih listed h hrest
      | some e =>
        rw [inReplyOrder_cons_keep _ _ _ _ e hc] at h
        cases hr : inReplyOrder rt candidates rest with
        | none => rw [hr] at h; cases h
        | some lr =>
          rw [hr] at h
          simp only [Option.map_some', Option.some.injEq] at h
          subst h
          have hlr := ih lr hr hrest
          cases hu : e.userId with
          | none => simpa [userIds, List.filterMap_cons, hu] using hlr
          | some u =>
            have hcons : userIds (e :: lr) = u :: userIds lr := by
              simp [userIds, List.filterMap_cons, hu]
            rw [hcons, List.nodup_cons]
            refine ⟨?_, hlr⟩
            intro hmem
            obtain ⟨e', he', hu'⟩ := List.mem_filterMap.mp hmem
            obtain ⟨m', hm', hc'⟩ := (mem_inReplyOrder hr).mp he'
            obtain ⟨c, hrc, hcm, hcid⟩ := userId_resolved hc hu
            obtain ⟨c', hrc', hcm', hcid'⟩ := userId_resolved hc' hu'
            have hcc : c = c' :=
              List.inj_on_of_nodup_map hids hcm hcm' (hcid.trans hcid'.symm)
            subst hcc
            have hin : c ∈ resolvedCandidates rt candidates rest :=
              List.mem_filterMap.mpr ⟨m', hm', hrc'⟩
            have hhead : resolvedCandidates rt candidates (m :: rest) =
                c :: resolvedCandidates rt candidates rest := by
              simp [resolvedCandidates, List.filterMap_cons, hrc]
            rw [hhead] at hres
            exact (List.nodup_cons.mp hres).1 hin

/-- C7 (as the code has it): for a pool with distinct ids and a reply in which
no two elements resolve to the same pool candidate, no two entries of the
output carry the same `userId`. The code removes no duplicates: elements that
resolve to the same candidate, such as a repeated index or the indices `1` and
`"1"`, each yield an entry. -/
theorem userIds_distinct_of_distinct_indices (rt : Runtime) (candidates : List Candidate)
    (ms : List (Option MatchCandidate)) (out : List EnrichedMatch)
    (hids : (candidates.map (fun c => c.id)).Nodup)
    (hres : (resolvedCandidates rt candidates ms).Nodup)
    (h : enrichedMatches rt candidates ms = some out) :
    (userIds out).Nodup := by
  obtain ⟨listed, hl, rfl⟩ := enrichedMatches_some h
  have hn := listed_userIds_nodup rt candidates hids ms listed hl hres
  have hperm : (userIds (sortMatches listed)).Perm (userIds listed) :=
    (sortMatches_perm listed).filterMap _
  have hsorted := hperm.nodup_iff.mpr hn
  exact List.Nodup.sublist (List.Sublist.filterMap _ (List.take_sublist _ _)) hsorted

/-- Witness of C7 as amended: the sample pool and a reply naming Bob and
Alice once each. -/
theorem userIds_distinct_of_distinct_indices_witness :
    (samplePool.map (fun c => c.id)).Nodup ∧
    (resolvedCandidates sampleRuntime samplePool [some mBob60, some mAlice90]).Nodup ∧
    (userIds [entryOf (toCandidate docAlice) 90 JsVal.undefined,
      entryOf (toCandidate docBob) 60 JsVal.undefined]).Nodup :=
  ⟨by decide, by with_unfolding_all decide,
   userIds_distinct_of_distinct_indices sampleRuntime samplePool [some mBob60, some mAlice90]
     [entryOf (toCandidate docAlice) 90 JsVal.undefined,
      entryOf (toCandidate docBob) 60 JsVal.undefined]
     (by decide) (by with_unfolding_all decide) (by with_unfolding_all decide)⟩

/-- C7 fails as stated: the sample pool has distinct ids, the reply names
index 0 twice (scores 90 and 80), and the output holds two entries for user
`u1`, the first occurrence's score 90 among them. The same happens when the
reply names Bob once by the number 1 and once by the string `1`. -/
theorem duplicate_index_counterexample :
    (samplePool.map (fun c => c.id)).Nodup ∧
    enrichedMatches sampleRuntime samplePool [some mAlice90, some mAliceAgain] =
      some [entryOf (toCandidate docAlice) 90 JsVal.undefined,
       entryOf (toCandidate docAlice) 80 (JsVal.str "Second opinion")] ∧
    userIds [entryOf (toCandidate docAlice) 90 JsVal.undefined,
       entryOf (toCandidate docAlice) 80 (JsVal.str "Second opinion")] = ["u1", "u1"] ∧
    ¬ (userIds [entryOf (toCandidate docAlice) 90 JsVal.undefined,
       entryOf (toCandidate docAlice) 80 (JsVal.str "Second opinion")]).Nodup ∧
    enrichedMatches sampleRuntime samplePool [some mBob60, some mBobString] =
      some [entryOf (toCandidate docBob) 70 JsVal.undefined,
       entryOf (toCandidate docBob) 60 JsVal.undefined] := by
  refine ⟨by decide, by with_unfolding_all decide, by decide, by decide,
    by with_unfolding_all decide⟩

theorem contribution_withExtras (rt : Runtime) (candidates : List Candidate)
    (f : MatchCandidate → List (String × JsVal)) (m : Option MatchCandidate) :
    contribution rt candidates (withExtras f m) = contribution rt candidates m := by
  cases m <;> rfl

theorem inReplyOrder_withExtras (rt : Runtime) (candidates : List Candidate)
    (f : MatchCandidate → List (String × JsVal)) (ms : List (Option MatchCandidate)) :
    inReplyOrder rt candidates (ms.map (withExtras f)) = inReplyOrder rt candidates ms := by
  induction ms with
  | nil => rfl
  | cons m rest ih =>
    rw [List.map_cons, inReplyOrder, inReplyOrder, contribution_withExtras, ih]

/-- C8 fails in the code for an index that is no number. What holds: the five
profile fields of every output entry are what the code reads on the value that
`candidates[match.candidateIndex]` yields, for a number that names a pool
position they are the stored fields of the candidate at that position, and
replacing the other properties of the reply's elements (an echoed name, id,
bio) leaves the output unchanged. What fails: for the index `length` that
value is the number 3, no candidate, and the entry returned has all five
profile fields `undefined`; for the index `constructor` it is a function and
the entry carries the name `Array`. -/
theorem profile_fields_from_lookup :
    (∀ (rt : Runtime) (candidates : List Candidate) (ms : List (Option MatchCandidate))
        (out : List EnrichedMatch),
      enrichedMatches rt candidates ms = some out →
      ∀ e ∈ out,
        ∃ m, some m ∈ ms ∧ enrich rt candidates m = some (some e) ∧
          (∃ looked, lookupCandidate rt candidates m.candidateIndex = some (some looked) ∧
            e.userId = looked.id ∧ e.name = looked.name ∧ e.bio = looked.bio ∧
            e.interests = looked.interests ∧ e.imageUrl = looked.imageUrl) ∧
          (∀ (n : Nat) (c : Candidate),
            m.candidateIndex = JsVal.num (n : ℚ) → candidates[n]? = some c →
            e.userId = some c.id ∧ e.name = some c.name ∧ e.bio = some c.bio ∧
            e.interests = some c.interests ∧ e.imageUrl = some c.imageUrl)) ∧
    (∀ (rt : Runtime) (candidates : List Candidate) (ms : List (Option MatchCandidate))
        (f : MatchCandidate → List (String × JsVal)),
      enrichedMatches rt candidates (ms.map (withExtras f)) =
        enrichedMatches rt candidates ms) ∧
    (∀ rt : Runtime,
      enrichedMatches rt samplePool [some mLength90] = some [entryOfLength 90]) ∧
    enrichedMatches sampleRuntime samplePool
        [some ⟨JsVal.str "constructor", JsVal.num 90, JsVal.undefined, []⟩] =
      some [{ entryOfLength 90 with name := some "Array" }] := by
  refine ⟨?_, ?_, fun rt => by with_unfolding_all rfl, by with_unfolding_all decide⟩
  · intro rt candidates ms out h e he
    obtain ⟨listed, hl, hel⟩ := mem_enrichedMatches h he
    obtain ⟨m, hm, hc⟩ := (mem_inReplyOrder hl).mp hel
    obtain ⟨r, rfl, _, hen⟩ := contribution_some hc
    obtain ⟨looked, x, hlk, _, _, rfl⟩ := enrich_some hen
    refine ⟨r, hm, hen, ⟨looked, hlk, rfl, rfl, rfl, rfl, rfl⟩, ?_⟩
    intro n c hn hc'
    rw [hn, lookupCandidate_natCast, hc'] at hlk
    simp only [Option.map_some', Option.some.injEq] at hlk
    subst hlk
    exact ⟨rfl, rfl, rfl, rfl, rfl⟩
  · intro rt candidates ms f
    rw [enrichedMatches_eq, enrichedMatches_eq, inReplyOrder_withExtras]

/-- Witness of C8 for the part that holds: the element for index 1 echoes a
name, an id and a bio of the model's making; the output carries Bob's stored
fields. -/
theorem profile_fields_from_lookup_witness :
    ∃ m, some m ∈ [some mBobEcho] ∧
      enrich sampleRuntime samplePool m =
        some (some (entryOf (toCandidate docBob) 60 JsVal.undefined)) ∧
      (∃ looked, lookupCandidate sampleRuntime samplePool m.candidateIndex =
          some (some looked) ∧
        (entryOf (toCandidate docBob) 60 JsVal.undefined).userId = looked.id ∧
        (entryOf (toCandidate docBob) 60 JsVal.undefined).name = looked.name ∧
        (entryOf (toCandidate docBob) 60 JsVal.undefined).bio = looked.bio ∧
        (entryOf (toCandidate docBob) 60 JsVal.undefined).interests = looked.interests ∧
        (entryOf (toCandidate docBob) 60 JsVal.undefined).imageUrl = looked.imageUrl) ∧
      (∀ (n : Nat) (c : Candidate),
        m.candidateIndex = JsVal.num (n : ℚ) → samplePool[n]? = some c →
        (entryOf (toCandidate docBob) 60 JsVal.undefined).userId = some c.id ∧
        (entryOf (toCandidate docBob) 60 JsVal.undefined).name = some c.name ∧
        (entryOf (toCandidate docBob) 60 JsVal.undefined).bio = some c.bio ∧
        (entryOf (toCandidate docBob) 60 JsVal.undefined).interests = some c.interests ∧
        (entryOf (toCandidate docBob) 60 JsVal.undefined).imageUrl = some c.imageUrl) :=
  profile_fields_from_lookup.1 sampleRuntime samplePool [some mBobEcho]
    [entryOf (toCandidate docBob) 60 JsVal.undefined] (by with_unfolding_all decide) _
    (List.mem_singleton_self _)

theorem candidateBlocksFrom_getElem? (start : Nat) (candidates : List Candidate) (i : Nat) :
    (candidateBlocksFrom start candidates)[i]? =
      (candidates[i]?).map (fun c => candidateBlock c (start + i)) := by
  induction candidates generalizing start i with
  | nil => simp [candidateBlocksFrom]
  | cons c rest ih =>
    cases i with
    | zero => simp [candidateBlocksFrom]
    | succ j =>
      simp only [candidateBlocksFrom, List.getElem?_cons_succ]
      rw [ih (start + 1) j]
      congr 1
      funext x
      congr 1
      omega

/-- C10 fails in the code: the prompt numbers the candidate at pool position
`i` with `i + 1`, while the lookup `candidates[match.candidateIndex]` counts
from 0. For the sample pool the blocks read `1. Alice`, `2. Bob`,
`3. Anonymous`; the number printed for position `i` resolves to position
`i + 1`, so a reply that uses the printed numbers 1 and 3 returns Bob for the
entry meant for Alice and nothing for the entry meant for the third
candidate. -/
theorem prompt_labels_one_based :
    (∀ (candidates : List Candidate) (i : Nat),
      (candidateBlocks candidates)[i]? =
        (candidates[i]?).map (fun c =>
          "\n" ++ toString (i + 1) ++ ". " ++ c.name ++
          "\n   - Interests: " ++ orDefault (joinComma c.interests) "None listed" ++
          "\n   - Bio: " ++ orDefault c.bio "No bio" ++ "\n")) ∧
    (∀ (rt : Runtime) (candidates : List Candidate) (i : Nat),
      lookupCandidate rt candidates (JsVal.num ((i + 1 : Nat) : ℚ)) =
        some ((candidates[i + 1]?).map Looked.candidate)) ∧
    candidateBlocks samplePool =
      ["\n1. Alice\n   - Interests: math, chess\n   - Bio: Algebra fan\n",
       "\n2. Bob\n   - Interests: None listed\n   - Bio: No bio\n",
       "\n3. Anonymous\n   - Interests: None listed\n   - Bio: No bio\n"] ∧
    (∀ rt : Runtime,
      lookupCandidate rt samplePool (JsVal.num 0) =
        some (some (Looked.candidate (toCandidate docAlice))) ∧
      lookupCandidate rt samplePool (JsVal.num 1) =
        some (some (Looked.candidate (toCandidate docBob))) ∧
      lookupCandidate rt samplePool (JsVal.num 3) = some none ∧
      enrichedMatches rt samplePool replyByLabel =
        some [entryOf (toCandidate docBob) 90 (JsVal.str "meant for the first candidate")]) := by
  refine ⟨?_, ?_, by decide, fun rt => ⟨by with_unfolding_all rfl, by with_unfolding_all rfl,
    by with_unfolding_all rfl, by with_unfolding_all rfl⟩⟩
  · intro candidates i
    have h := candidateBlocksFrom_getElem? 0 candidates i
    simp only [Nat.zero_add] at h
    exact h
  · intro rt candidates i
    exact lookupCandidate_natCast rt candidates (i + 1)

/-- C11 fails in the code: the `not-found` error is thrown inside the `try`
block, so the `catch` replaces it. For every authenticated request with a
non-empty `targetUserId` whose two reads resolve and of which the caller's or
the target's document does not exist, the caller sees the `internal` error
with the message of the `catch`, not `not-found`. -/
theorem missing_profile_reports_internal (env : StarterEnv) (request : StarterRequest)
    (uid tid : String) (currentUserDoc targetUserDoc : Option UserData)
    (hauth : request.auth = some uid) (htid : request.targetUserId = some tid)
    (hne : tid ≠ "")
    (hcur : env.getDoc uid = some currentUserDoc)
    (htgt : env.getDoc tid = some targetUserDoc)
    (hmiss : currentUserDoc = none ∨ targetUserDoc = none) :
    getConversationStarters env request =
      Except.error ⟨"internal", "Failed to generate conversation starters"⟩ := by
  unfold getConversationStarters
  simp only [hauth, htid, hne, if_false]
  unfold starterBody
  rw [hcur, htgt]
  rcases hmiss with h | h
  · subst h
    rfl
  · subst h
    cases currentUserDoc <;> rfl

/-- Failing input of C11: caller `"me"` exists, target `"ghost"` does not. -/
theorem missing_profile_reports_internal_witness :
    sampleGetDoc "ghost" = some none ∧
    getConversationStarters (starterEnvWith none) (starterRequestFor "ghost") =
      Except.error ⟨"internal", "Failed to generate conversation starters"⟩ :=
  ⟨by decide,
   missing_profile_reports_internal (starterEnvWith none) (starterRequestFor "ghost")
     "me" "ghost" (some docMe.data) none rfl rfl (by decide) (by decide) (by decide)
     (Or.inr rfl)⟩

/-- A starter call that passes the checks, finds both documents and gets a
reply returns what the parse step yields. -/
theorem getConversationStarters_ok (env : StarterEnv) (request : StarterRequest)
    (uid tid : String) (currentUser targetUser : UserData) (text : String)
    (hauth : request.auth = some uid) (htid : request.targetUserId = some tid)
    (hne : tid ≠ "")
    (hcur : env.getDoc uid = some (some currentUser))
    (htgt : env.getDoc tid = some (some targetUser))
    (hgen : env.generateContent (starterPrompt currentUser targetUser) = some text) :
    getConversationStarters env request =
      Except.ok (parseStarterData env targetUser text) := by
  unfold getConversationStarters
  simp only [hauth, htid, hne, if_false]
  unfold starterBody
  simp only [hcur, htgt, hgen]

/-- C12 fails in the code: a reply that parses is returned as it is. For every
starter call that reaches the parse step and whose normalised reply parses to
`starterData`, the call returns `starterData` itself, whether its `starters`
list is empty, absent or longer than five; the fallback list is not used. -/
theorem parsed_starters_returned_as_is (env : StarterEnv) (request : StarterRequest)
    (uid tid : String) (currentUser targetUser : UserData) (text : String)
    (starterData : StarterData)
    (hauth : request.auth = some uid) (htid : request.targetUserId = some tid)
    (hne : tid ≠ "")
    (hcur : env.getDoc uid = some (some currentUser))
    (htgt : env.getDoc tid = some (some targetUser))
    (hgen : env.generateContent (starterPrompt currentUser targetUser) = some text)
    (hparse : env.jsonParse (cleanedText text) = some starterData) :
    getConversationStarters env request = Except.ok starterData := by
  rw [getConversationStarters_ok env request uid tid currentUser targetUser text hauth htid hne
    hcur htgt hgen]
  unfold parseStarterData
  rw [hparse]

/-- Failing input of C12: the reply parses to an object whose `starters` list
is empty, and to an object without `starters`; the call returns each as it
is. -/
theorem parsed_starters_returned_as_is_witness :
    getConversationStarters (starterEnvWith (some ⟨some []⟩)) (starterRequestFor "u1") =
      Except.ok ⟨some []⟩ ∧
    getConversationStarters (starterEnvWith (some ⟨none⟩)) (starterRequestFor "u1") =
      Except.ok ⟨none⟩ :=
  ⟨parsed_starters_returned_as_is (starterEnvWith (some ⟨some []⟩)) (starterRequestFor "u1")
     "me" "u1" docMe.data docAlice.data "reply" ⟨some []⟩ rfl rfl (by decide) (by decide)
     (by decide) rfl rfl,
   parsed_starters_returned_as_is (starterEnvWith (some ⟨none⟩)) (starterRequestFor "u1")
     "me" "u1" docMe.data docAlice.data "reply" ⟨none⟩ rfl rfl (by decide) (by decide)
     (by decide) rfl rfl⟩

/-- C13: when the normalised reply fails to parse, the starter call raises no
error and returns the fixed list of four items, the first of which greets the
target by the stored name; nothing else of the request, the store or the reply
enters the result. -/
theorem unparsable_reply_gives_fallback (env : StarterEnv) (request : StarterRequest)
    (uid tid : String) (currentUser targetUser : UserData) (text : String)
    (hauth : request.auth = some uid) (htid : request.targetUserId = some tid)
    (hne : tid ≠ "")
    (hcur : env.getDoc uid = some (some currentUser))
    (htgt : env.getDoc tid = some (some targetUser))
    (hgen : env.generateContent (starterPrompt currentUser targetUser) = some text)
    (hparse : env.jsonParse (cleanedText text) = none) :
    getConversationStarters env request =
      Except.ok ⟨some
        [ "Hey " ++ templateStr targetUser.name ++ "! Want to study together?",
          "I saw we share some interests. Want to collaborate?",
          "Looking for a study buddy - interested?",
          "Would love to learn from you!" ]⟩ ∧
    (∀ name : String, targetUser.name = some name →
      getConversationStarters env request =
        Except.ok ⟨some
          [ "Hey " ++ name ++ "! Want to study together?",
            "I saw we share some interests. Want to collaborate?",
            "Looking for a study buddy - interested?",
            "Would love to learn from you!" ]⟩) := by
  have h : getConversationStarters env request = Except.ok (fallbackStarters targetUser) := by
    rw [getConversationStarters_ok env request uid tid currentUser targetUser text hauth htid
      hne hcur htgt hgen]
    unfold parseStarterData
    rw [hparse]
  refine ⟨h, ?_⟩
  intro name hname
  rw [h]
  simp [fallbackStarters, hname, templateStr]

/-- Witness of C13: target Alice and a reply that does not parse. -/
theorem unparsable_reply_gives_fallback_witness :
    getConversationStarters (starterEnvWith none) (starterRequestFor "u1") =
      Except.ok ⟨some
        [ "Hey Alice! Want to study together?",
          "I saw we share some interests. Want to collaborate?",
          "Looking for a study buddy - interested?",
          "Would love to learn from you!" ]⟩ :=
  (unparsable_reply_gives_fallback (starterEnvWith none) (starterRequestFor "u1")
    "me" "u1" docMe.data docAlice.data "reply" rfl rfl (by decide) (by decide)
    (by decide) rfl rfl).2 "Alice" rfl

/-- C14: for a non-empty pool and a reply whose normalised text fails to
parse, `findStudyBuddyMatches` returns no list: it fails with the `internal`
error. -/
theorem unparsable_reply_is_internal (env : MatchEnv) (request : MatchRequest) (uid : String)
    (interests : List String) (docs : List Doc) (text : String)
    (hauth : request.auth = some uid)
    (hint : request.data.interests = InterestsField.array interests)
    (hne : interests ≠ [])
    (hdocs : env.usersSnapshot = some docs)
    (hpool : gatherCandidates uid docs ≠ [])
    (hgen : env.generateContent
      (matchPrompt interests request.data.bio (gatherCandidates uid docs)) = some text)
    (hparse : env.jsonParse (cleanedText text) = none) :
    findStudyBuddyMatches env request =
      Except.error ⟨"internal", "An error occurred during matchmaking"⟩ ∧
    ∀ out, findStudyBuddyMatches env request ≠ Except.ok out := by
  have h1 : interests.length ≠ 0 := fun h => hne (List.length_eq_zero.mp h)
  have h2 : (gatherCandidates uid docs).length ≠ 0 := fun h => hpool (List.length_eq_zero.mp h)
  have h : findStudyBuddyMatches env request =
      Except.error ⟨"internal", "An error occurred during matchmaking"⟩ := by
    simp [findStudyBuddyMatches, hauth, hint, h1, matchBody, hdocs, h2, hgen, parseMatchData,
      hparse]
  refine ⟨h, ?_⟩
  intro out hout
  rw [h] at hout
  cases hout

/-- Witness of C14: the sample store, caller `"me"`, and a reply that does not
parse. -/
theorem unparsable_reply_is_internal_witness :
    findStudyBuddyMatches (envRaw (some sampleDocs) (some "not json") none) sampleRequest =
      Except.error ⟨"internal", "An error occurred during matchmaking"⟩ :=
  (unparsable_reply_is_internal (envRaw (some sampleDocs) (some "not json") none) sampleRequest
    "me" ["math"] sampleDocs "not json" rfl rfl (by decide) rfl (by decide) rfl rfl).1

/-- C15: when every stored user is the caller, an authenticated request with
non-empty interests returns the empty `matches` list, whatever the model call
and the parse would do: the result is the same for all collaborators that share
the snapshot. -/
theorem empty_pool_short_circuit (request : MatchRequest) (uid : String)
    (interests : List String) (docs : List Doc)
    (hauth : request.auth = some uid)
    (hint : request.data.interests = InterestsField.array interests)
    (hne : interests ≠ [])
    (hself : ∀ d ∈ docs, d.id = uid) :
    ∀ (generateContent : String → Option String) (jsonParse : String → Option MatchData)
      (runtime : Runtime),
      findStudyBuddyMatches ⟨some docs, generateContent, jsonParse, runtime⟩ request =
        Except.ok [] := by
  intro generateContent jsonParse runtime
  have h1 : interests.length ≠ 0 := fun h => hne (List.length_eq_zero.mp h)
  have h2 : gatherCandidates uid docs = [] := by
    rw [gatherCandidates_eq]
    have : docs.filter (fun d => decide (d.id ≠ uid)) = [] := by
      rw [List.filter_eq_nil_iff]
      intro d hd
      simp [hself d hd]
    rw [this]
    rfl
  simp [findStudyBuddyMatches, hauth, hint, h1, matchBody, h2]

/-- Witness of C15: the store holds the caller only; a model that throws and a
model that answers give the same empty list. -/
theorem empty_pool_short_circuit_witness :
    findStudyBuddyMatches ⟨some [docMe], fun _ => none, fun _ => none, sampleRuntime⟩
      sampleRequest = Except.ok [] ∧
    findStudyBuddyMatches
      ⟨some [docMe], fun _ => some "reply", fun _ => some ⟨some [some mAlice90]⟩, sampleRuntime⟩
      sampleRequest = Except.ok [] :=
  ⟨empty_pool_short_circuit sampleRequest "me" ["math"] [docMe] rfl rfl (by decide)
     (by decide) (fun _ => none) (fun _ => none) sampleRuntime,
   empty_pool_short_circuit sampleRequest "me" ["math"] [docMe] rfl rfl (by decide)
     (by decide) (fun _ => some "reply") (fun _ => some ⟨some [some mAlice90]⟩) sampleRuntime⟩

/-- C16: an authenticated request whose `interests` is missing, not an array
or an empty array fails with `invalid-argument`, whatever the store holds and
whatever the model would do: the result does not depend on the
collaborators. -/
theorem invalid_interests_rejected (request : MatchRequest) (uid : String)
    (hauth : request.auth = some uid)
    (hbad : request.data.interests = InterestsField.missing ∨
      request.data.interests = InterestsField.notArray ∨
      request.data.interests = InterestsField.array []) :
    ∀ env : MatchEnv, findStudyBuddyMatches env request =
      Except.error ⟨"invalid-argument", "Interests array is required and must not be empty"⟩ := by
  intro env
  rcases hbad with h | h | h <;> simp [findStudyBuddyMatches, hauth, h]

/-- Witness of C16: an empty interests array, with a full store and with a
store whose read fails. -/
theorem invalid_interests_rejected_witness :
    findStudyBuddyMatches (envWith sampleDocs [some mAlice90])
        ⟨some "me", ⟨InterestsField.array [], some "bio"⟩⟩ =
      Except.error ⟨"invalid-argument", "Interests array is required and must not be empty"⟩ ∧
    findStudyBuddyMatches (envRaw none none none)
        ⟨some "me", ⟨InterestsField.array [], some "bio"⟩⟩ =
      Except.error ⟨"invalid-argument", "Interests array is required and must not be empty"⟩ :=
  ⟨invalid_interests_rejected ⟨some "me", ⟨InterestsField.array [], some "bio"⟩⟩ "me" rfl
     (Or.inr (Or.inr rfl)) (envWith sampleDocs [some mAlice90]),
   invalid_interests_rejected ⟨some "me", ⟨InterestsField.array [], some "bio"⟩⟩ "me" rfl
     (Or.inr (Or.inr rfl)) (envRaw none none none)⟩

/-- C17 (as the code has it): every output `matchScore` is the score of a
model entry capped at 100, `min(100, score)` for a score of at least 50; the
clamp does not round, so the output score is a whole number whenever the
model's score is one, and whenever every score of the reply that converts to a
finite number converts to a whole number, every output score is whole. -/
theorem matchScore_is_capped_score (rt : Runtime) (candidates : List Candidate)
    (ms : List (Option MatchCandidate)) (out : List EnrichedMatch)
    (h : enrichedMatches rt candidates ms = some out) :
    (∀ e ∈ out,
      ∃ m, some m ∈ ms ∧ ∃ x : JsNum, toNumber rt m.score = some x ∧
        x.ge (JsNum.fin 50) = true ∧
        (x = JsNum.posInf → e.matchScore = JsNum.fin 100) ∧
        (∀ q : ℚ, x = JsNum.fin q →
          50 ≤ q ∧ e.matchScore = JsNum.fin (min 100 q) ∧
          ((∃ z : ℤ, q = z) → WholeScore e.matchScore))) ∧
    ((∀ m, some m ∈ ms → ∀ q : ℚ, toNumber rt m.score = some (JsNum.fin q) → ∃ z : ℤ, q = z) →
      ∀ e ∈ out, WholeScore e.matchScore) := by
  have key : ∀ e ∈ out,
      ∃ m, some m ∈ ms ∧ ∃ x : JsNum, toNumber rt m.score = some x ∧
        x.ge (JsNum.fin 50) = true ∧
        (x = JsNum.posInf → e.matchScore = JsNum.fin 100) ∧
        (∀ q : ℚ, x = JsNum.fin q →
          50 ≤ q ∧ e.matchScore = JsNum.fin (min 100 q) ∧
          ((∃ z : ℤ, q = z) → WholeScore e.matchScore)) := by
    intro e he
    obtain ⟨listed, hl, hel⟩ := mem_enrichedMatches h he
    obtain ⟨m, hm, hc⟩ := (mem_inReplyOrder hl).mp hel
    obtain ⟨r, rfl, hk, hen⟩ := contribution_some hc
    obtain ⟨x, hx, hge, _⟩ := keepEntry_true hk
    obtain ⟨looked, x', _, _, hx', rfl⟩ := enrich_some hen
    rw [hx] at hx'
    cases hx'
    refine ⟨r, hm, x, hx, hge, ?_, ?_⟩
    · intro hinf
      subst hinf
      simp [mathMin, mathMax]
    · intro q hq
      subst hq
      have h50 : 50 ≤ q := by simpa [JsNum.ge] using hge
      have hmax : max 0 q = q := max_eq_right (by linarith)
      have hs : mathMin (JsNum.fin 100) (mathMax (JsNum.fin 0) (JsNum.fin q)) =
          JsNum.fin (min 100 q) := by
        simp [mathMin, mathMax, hmax]
      refine ⟨h50, hs, ?_⟩
      rintro ⟨z, hz⟩
      refine ⟨min 100 z, ?_⟩
      show mathMin (JsNum.fin 100) (mathMax (JsNum.fin 0) (JsNum.fin q)) = _
      rw [hs, hz]
      congr 1
      push_cast
      rfl
  refine ⟨key, ?_⟩
  intro hall e he
  obtain ⟨m, hm, x, hx, hge, hinf, hfin⟩ := key e he
  cases x with
  | nan => simp [JsNum.ge] at hge
  | negInf => simp [JsNum.ge] at hge
  | posInf =>
    rw [hinf rfl]
    exact ⟨100, by norm_num⟩
  | fin q => exact (hfin q rfl).2.2 (hall m hm q hx)

/-- Witness of C17 as amended: a reply with the whole scores 60 and 90. -/
theorem matchScore_is_capped_score_witness :
    WholeScore (entryOf (toCandidate docBob) 60 JsVal.undefined).matchScore :=
  (matchScore_is_capped_score sampleRuntime samplePool [some mBob60, some mAlice90]
    [entryOf (toCandidate docAlice) 90 JsVal.undefined,
     entryOf (toCandidate docBob) 60 JsVal.undefined]
    (by with_unfolding_all decide)).2
    (by
      intro m hm q hq
      rcases List.mem_cons.mp hm with hm | hm
      · cases hm
        exact ⟨60, by simp [mBob60, toNumber] at hq; rw [← hq]; norm_num⟩
      · rcases List.mem_cons.mp hm with hm | hm
        · cases hm
          exact ⟨90, by simp [mAlice90, toNumber] at hq; rw [← hq]; norm_num⟩
        · cases hm)
    (entryOf (toCandidate docBob) 60 JsVal.undefined) (by decide)

/-- C17 fails as stated: a reply with score 75.5 for index 0 returns that
entry with `matchScore` 75.5, which is no whole number. -/
theorem fractional_score_counterexample :
    enrichedMatches sampleRuntime samplePool [some mAliceHalf] =
      some [entryOf (toCandidate docAlice) (151 / 2) JsVal.undefined] ∧
    ¬ ∀ e ∈ [entryOf (toCandidate docAlice) (151 / 2) JsVal.undefined],
      WholeScore e.matchScore := by
  have h : enrichedMatches sampleRuntime samplePool [some mAliceHalf] =
      some [entryOf (toCandidate docAlice) (151 / 2) JsVal.undefined] := by
    have := enrichedMatches_single sampleRuntime samplePool 0 (toCandidate docAlice) (151 / 2)
      JsVal.undefined [] rfl (by norm_num)
    rw [mAliceHalf, this]
    norm_num
  refine ⟨h, ?_⟩
  intro hall
  obtain ⟨z, hz⟩ := hall _ (List.mem_singleton_self _)
  have hq : (151 / 2 : ℚ) = z := by
    simpa [entryOf] using hz
  have h2 : (151 : ℚ) = 2 * z := by linarith
  have h3 : (151 : ℤ) = 2 * z := by exact_mod_cast h2
  omega

/-- C18 holds for matchmaking and fails for the starter flow: a stored record
whose name is missing or empty becomes a candidate named `Anonymous`, but
`getConversationStarters` interpolates `targetUser.name` as it is. For a
target without a name the fallback greets `undefined` and the prompt is the
one of a target named `undefined`; for an empty name the fallback reads
`Hey ! Want to study together?`. -/
theorem starter_name_has_no_default :
    (∀ doc : Doc, doc.data.name = none ∨ doc.data.name = some "" →
      (toCandidate doc).name = "Anonymous") ∧
    (∀ targetUser : UserData, targetUser.name = none →
      fallbackStarters targetUser =
        ⟨some [ "Hey undefined! Want to study together?",
                "I saw we share some interests. Want to collaborate?",
                "Looking for a study buddy - interested?",
                "Would love to learn from you!" ]⟩) ∧
    (∀ targetUser : UserData, targetUser.name = some "" →
      fallbackStarters targetUser =
        ⟨some [ "Hey ! Want to study together?",
                "I saw we share some interests. Want to collaborate?",
                "Looking for a study buddy - interested?",
                "Would love to learn from you!" ]⟩) ∧
    (∀ currentUser targetUser : UserData, targetUser.name = none →
      starterPrompt currentUser targetUser =
        starterPrompt currentUser { targetUser with name := some "undefined" }) := by
  refine ⟨?_, ?_, ?_, ?_⟩
  · intro doc h
    rcases h with h | h <;> simp [toCandidate, strOr, h]
  · intro targetUser h
    simp [fallbackStarters, templateStr, h]
  · intro targetUser h
    simp [fallbackStarters, templateStr, h]
  · intro currentUser targetUser h
    simp [starterPrompt, templateStr, h]

/-- Failing input of C18: the stored record `u3` has no name. As a match it is
named `Anonymous`; as the target of a starter call whose reply does not parse
it is greeted as `undefined`. -/
theorem starter_name_has_no_default_witness :
    (toCandidate docCarol).name = "Anonymous" ∧
    (enrichedMatches sampleRuntime (gatherCandidates "me" sampleDocs) [some mCarol90]).map
        (fun out => out.map (fun e => e.name)) = some [some "Anonymous"] ∧
    getConversationStarters (starterEnvWith none) (starterRequestFor "u3") =
      Except.ok ⟨some [ "Hey undefined! Want to study together?",
                        "I saw we share some interests. Want to collaborate?",
                        "Looking for a study buddy - interested?",
                        "Would love to learn from you!" ]⟩ ∧
    fallbackStarters ⟨some "", none, none, none⟩ =
      ⟨some [ "Hey ! Want to study together?",
              "I saw we share some interests. Want to collaborate?",
              "Looking for a study buddy - interested?",
              "Would love to learn from you!" ]⟩ ∧
    starterPrompt docMe.data docCarol.data =
      starterPrompt docMe.data { docCarol.data with name := some "undefined" } :=
  ⟨starter_name_has_no_default.1 docCarol (Or.inl rfl),
   by with_unfolding_all decide,
   by
     have h := starter_name_has_no_default.2.1 docCarol.data rfl
     rw [← h]
     rfl,
   starter_name_has_no_default.2.2.1 ⟨some "", none, none, none⟩ rfl,
   starter_name_has_no_default.2.2.2 docMe.data docCarol.data rfl⟩

theorem removeFence_json_head (l : List Char) :
    removeFence "```json".toList 0 ("```json\n".toList ++ l) =
      removeFence "```json".toList 0 l := by
  rfl

theorem jsTrim_append_ws (w : Char) (hw : isJsWhiteSpace w = true) (l : List Char) :
    jsTrim (l ++ [w]) = jsTrim l := by
  induction l with
  | nil => simp [jsTrim, List.dropWhile, hw]
  | cons c r ih =>
    by_cases hc : isJsWhiteSpace c = true
    · have h1 : jsTrim (c :: r ++ [w]) = jsTrim (r ++ [w]) := by
        simp [jsTrim, List.dropWhile, hc]
      have h2 : jsTrim (c :: r) = jsTrim r := by
        simp [jsTrim, List.dropWhile, hc]
      rw [h1, h2, ih]
    · have hc' : isJsWhiteSpace c = false := by simpa using hc
      simp [jsTrim, List.dropWhile, hc', hw]

theorem removeFence_id_of_absent (pat : List Char) (l : List Char) (h : ¬ pat <:+: l) :
    removeFence pat 0 l = l := by
  induction l with
  | nil => rfl
  | cons c r ih =>
    have hp : pat.isPrefixOf (c :: r) = false := by
      cases hb : pat.isPrefixOf (c :: r) with
      | false => rfl
      | true => exact absurd (List.isPrefixOf_iff_prefix.mp hb).isInfix h
    have hr : ¬ pat <:+: r := fun hi => h (hi.trans (List.suffix_cons c r).isInfix)
    unfold removeFence
    rw [hp, ih hr]
    rfl

theorem removeFence_zero_cons (pat : List Char) (c : Char) (rest : List Char) :
    removeFence pat 0 (c :: rest) =
      if pat.isPrefixOf (c :: rest) then
        removeFence pat
          (pat.length - 1 + (if (rest.drop (pat.length - 1)).head? = some '\n' then 1 else 0))
          rest
      else c :: removeFence pat 0 rest := by
  rw [removeFence]

theorem removeFence_succ_cons (pat : List Char) (k : Nat) (c : Char) (rest : List Char) :
    removeFence pat (k + 1) (c :: rest) = removeFence pat k rest := by
  rw [removeFence]

theorem prefix_of_prefix_append_newline (p l s : List Char) (hnl : '\n' ∉ p)
    (h : p <+: l ++ '\n' :: s) : p <+: l := by
  obtain ⟨t, ht⟩ := h
  rcases List.append_eq_append_iff.mp ht with ⟨a, hl, _⟩ | ⟨c, hp, hs⟩
  · exact ⟨a, hl.symm⟩
  · cases c with
    | nil =>
      rw [List.append_nil] at hp
      rw [hp]
    | cons x xs =>
      have hx : x = '\n' := by
        have := congrArg List.head? hs
        simpa using this.symm
      subst hx
      exact absurd (by rw [hp]; simp) hnl

theorem isPrefixOf_append_of_isPrefixOf (p l s : List Char)
    (h : p.isPrefixOf l = true) : p.isPrefixOf (l ++ s) = true := by
  rw [List.isPrefixOf_iff_prefix] at *
  exact h.trans (List.prefix_append l s)

theorem isPrefixOf_of_append_newline (p l s : List Char) (hnl : '\n' ∉ p)
    (h : p.isPrefixOf (l ++ '\n' :: s) = true) : p.isPrefixOf l = true := by
  rw [List.isPrefixOf_iff_prefix] at *
  exact prefix_of_prefix_append_newline p l s hnl h

/-- The second replacement over a text followed by the closing fence: the
fence goes, and at most the line feed before it stays. -/
theorem removeFence_tick_closing (l : List Char) :
    ∀ k : Nat, k ≤ l.length →
      removeFence ['`', '`', '`'] k (l ++ ['\n', '`', '`', '`']) =
          removeFence ['`', '`', '`'] k l ∨
      removeFence ['`', '`', '`'] k (l ++ ['\n', '`', '`', '`']) =
          removeFence ['`', '`', '`'] k l ++ ['\n'] := by
  induction l with
  | nil =>
    intro k hk
    have : k = 0 := by simpa using hk
    subst this
    right
    rfl
  | cons c r ih =>
    intro k hk
    cases k with
    | succ k' =>
      rw [List.cons_append, removeFence_succ_cons, removeFence_succ_cons]
      exact ih k' (by simpa using hk)
    | zero =>
      by_cases hp : List.isPrefixOf ['`', '`', '`'] (c :: r ++ ['\n', '`', '`', '`']) = true
      · have hp' : List.isPrefixOf ['`', '`', '`'] (c :: r) = true :=
          isPrefixOf_of_append_newline _ _ _ (by decide) hp
        obtain ⟨r', hr'⟩ := List.isPrefixOf_iff_prefix.mp hp'
        simp only [List.cons_append, List.nil_append, List.cons.injEq] at hr'
        obtain ⟨rfl, rfl⟩ := hr'
        cases r' with
        | nil => left; rfl
        | cons d r'' =>
          have e1 : removeFence ['`', '`', '`'] 0
              ('`' :: '`' :: '`' :: d :: r'' ++ ['\n', '`', '`', '`']) =
              removeFence ['`', '`', '`'] (2 + (if d = '\n' then 1 else 0))
                ('`' :: '`' :: d :: r'' ++ ['\n', '`', '`', '`']) := by
            rw [List.cons_append, removeFence_zero_cons]
            simp
          have e2 : removeFence ['`', '`', '`'] 0 ('`' :: '`' :: '`' :: d :: r'') =
              removeFence ['`', '`', '`'] (2 + (if d = '\n' then 1 else 0))
                ('`' :: '`' :: d :: r'') := by
            rw [removeFence_zero_cons]
            simp
          rw [e1, e2]
          apply ih
          simp only [List.length_cons]
          split <;> omega
      · have hp' : ¬ List.isPrefixOf ['`', '`', '`'] (c :: r) = true := fun h =>
          hp (isPrefixOf_append_of_isPrefixOf _ _ _ h)
        rw [List.cons_append] at hp
        have e1 : removeFence ['`', '`', '`'] 0 (c :: (r ++ ['\n', '`', '`', '`'])) =
            c :: removeFence ['`', '`', '`'] 0 (r ++ ['\n', '`', '`', '`']) := by
          rw [removeFence_zero_cons, if_neg hp]
        have e2 : removeFence ['`', '`', '`'] 0 (c :: r) =
            c :: removeFence ['`', '`', '`'] 0 r := by
          rw [removeFence_zero_cons, if_neg hp']
        rw [List.cons_append, e1, e2]
        rcases ih 0 (Nat.zero_le _) with h | h
        · left; rw [h]
        · right; rw [h]; rfl

/-- The second replacement over a text followed by three backticks: the three
backticks go and nothing else changes. -/
theorem removeFence_tick_ticks (l : List Char) :
    ∀ k : Nat, k ≤ l.length →
      removeFence ['`', '`', '`'] k (l ++ ['`', '`', '`']) =
        removeFence ['`', '`', '`'] k l := by
  induction l with
  | nil =>
    intro k hk
    have : k = 0 := by simpa using hk
    subst this
    rfl
  | cons c r ih =>
    intro k hk
    cases k with
    | succ k' =>
      rw [List.cons_append, removeFence_succ_cons, removeFence_succ_cons]
      exact ih k' (by simpa using hk)
    | zero =>
      by_cases hp' : List.isPrefixOf ['`', '`', '`'] (c :: r) = true
      · obtain ⟨r', hr'⟩ := List.isPrefixOf_iff_prefix.mp hp'
        simp only [List.cons_append, List.nil_append, List.cons.injEq] at hr'
        obtain ⟨rfl, rfl⟩ := hr'
        cases r' with
        | nil => rfl
        | cons d r'' =>
          have e1 : removeFence ['`', '`', '`'] 0
              ('`' :: '`' :: '`' :: d :: r'' ++ ['`', '`', '`']) =
              removeFence ['`', '`', '`'] (2 + (if d = '\n' then 1 else 0))
                ('`' :: '`' :: d :: r'' ++ ['`', '`', '`']) := by
            rw [List.cons_append, removeFence_zero_cons]
            simp
          have e2 : removeFence ['`', '`', '`'] 0 ('`' :: '`' :: '`' :: d :: r'') =
              removeFence ['`', '`', '`'] (2 + (if d = '\n' then 1 else 0))
                ('`' :: '`' :: d :: r'') := by
            rw [removeFence_zero_cons]
            simp
          rw [e1, e2]
          apply ih
          simp only [List.length_cons]
          split <;> omega
      · by_cases hp : List.isPrefixOf ['`', '`', '`'] (c :: r ++ ['`', '`', '`']) = true
        · -- the match straddles the end of the text: the text is one or two backticks
          cases r with
          | nil =>
            have hc : '`' = c := by simpa [List.isPrefixOf] using hp
            subst hc
            rfl
          | cons d r2 =>
            cases r2 with
            | nil =>
              have hc : '`' = c ∧ '`' = d := by simpa [List.isPrefixOf] using hp
              obtain ⟨rfl, rfl⟩ := hc
              rfl
            | cons e r3 =>
              have : List.isPrefixOf ['`', '`', '`'] (c :: d :: e :: r3) = true := by
                simpa [List.isPrefixOf] using hp
              exact absurd this hp'
        · rw [List.cons_append] at hp
          have e1 : removeFence ['`', '`', '`'] 0 (c :: (r ++ ['`', '`', '`'])) =
              c :: removeFence ['`', '`', '`'] 0 (r ++ ['`', '`', '`']) := by
            rw [removeFence_zero_cons, if_neg hp]
          have e2 : removeFence ['`', '`', '`'] 0 (c :: r) =
              c :: removeFence ['`', '`', '`'] 0 r := by
            rw [removeFence_zero_cons, if_neg hp']
          rw [List.cons_append, e1, e2, ih 0 (Nat.zero_le _)]

/-- The first replacement over a text followed by the closing fence: the
closing fence stays, except that a match ending the text takes the line feed
with it. -/
theorem removeFence_json_closing (l : List Char) :
    ∀ k : Nat, k ≤ l.length →
      removeFence ['`', '`', '`', 'j', 's', 'o', 'n'] k (l ++ ['\n', '`', '`', '`']) =
          removeFence ['`', '`', '`', 'j', 's', 'o', 'n'] k l ++ ['\n', '`', '`', '`'] ∨
      removeFence ['`', '`', '`', 'j', 's', 'o', 'n'] k (l ++ ['\n', '`', '`', '`']) =
          removeFence ['`', '`', '`', 'j', 's', 'o', 'n'] k l ++ ['`', '`', '`'] := by
  induction l with
  | nil =>
    intro k hk
    have : k = 0 := by simpa using hk
    subst this
    left
    rfl
  | cons c r ih =>
    intro k hk
    cases k with
    | succ k' =>
      rw [List.cons_append, removeFence_succ_cons, removeFence_succ_cons]
      exact ih k' (by simpa using hk)
    | zero =>
      by_cases hp : List.isPrefixOf ['`', '`', '`', 'j', 's', 'o', 'n']
          (c :: r ++ ['\n', '`', '`', '`']) = true
      · have hp' : List.isPrefixOf ['`', '`', '`', 'j', 's', 'o', 'n'] (c :: r) = true :=
          isPrefixOf_of_append_newline _ _ _ (by decide) hp
        obtain ⟨r', hr'⟩ := List.isPrefixOf_iff_prefix.mp hp'
        simp only [List.cons_append, List.nil_append, List.cons.injEq] at hr'
        obtain ⟨rfl, rfl⟩ := hr'
        cases r' with
        | nil => right; rfl
        | cons d r'' =>
          have e1 : removeFence ['`', '`', '`', 'j', 's', 'o', 'n'] 0
              ('`' :: '`' :: '`' :: 'j' :: 's' :: 'o' :: 'n' :: d :: r'' ++
                ['\n', '`', '`', '`']) =
              removeFence ['`', '`', '`', 'j', 's', 'o', 'n']
                (6 + (if d = '\n' then 1 else 0))
                ('`' :: '`' :: 'j' :: 's' :: 'o' :: 'n' :: d :: r'' ++
                  ['\n', '`', '`', '`']) := by
            rw [List.cons_append, removeFence_zero_cons]
            simp
          have e2 : removeFence ['`', '`', '`', 'j', 's', 'o', 'n'] 0
              ('`' :: '`' :: '`' :: 'j' :: 's' :: 'o' :: 'n' :: d :: r'') =
              removeFence ['`', '`', '`', 'j', 's', 'o', 'n']
                (6 + (if d = '\n' then 1 else 0))
                ('`' :: '`' :: 'j' :: 's' :: 'o' :: 'n' :: d :: r'') := by
            rw [removeFence_zero_cons]
            simp
          rw [e1, e2]
          apply ih
          simp only [List.length_cons]
          split <;> omega
      · have hp' : ¬ List.isPrefixOf ['`', '`', '`', 'j', 's', 'o', 'n'] (c :: r) = true :=
          fun h => hp (isPrefixOf_append_of_isPrefixOf _ _ _ h)
        rw [List.cons_append] at hp
        have e1 : removeFence ['`', '`', '`', 'j', 's', 'o', 'n'] 0
            (c :: (r ++ ['\n', '`', '`', '`'])) =
            c :: removeFence ['`', '`', '`', 'j', 's', 'o', 'n'] 0
              (r ++ ['\n', '`', '`', '`']) := by
          rw [removeFence_zero_cons, if_neg hp]
        have e2 : removeFence ['`', '`', '`', 'j', 's', 'o', 'n'] 0 (c :: r) =
            c :: removeFence ['`', '`', '`', 'j', 's', 'o', 'n'] 0 r := by
          rw [removeFence_zero_cons, if_neg hp']
        rw [List.cons_append, e1, e2]
        rcases ih 0 (Nat.zero_le _) with h | h
        · left; rw [h]; rfl
        · right; rw [h]; rfl

theorem fenced_toList (t : String) :
    (fenced t).toList = "```json\n".toList ++ (t.toList ++ ['\n', '`', '`', '`']) := by
  unfold fenced
  simp [String.toList, String.data_append]

theorem cleanedText_fenced (t : String) : cleanedText (fenced t) = cleanedText t := by
  unfold cleanedText
  rw [fenced_toList, removeFence_json_head]
  congr 1
  show jsTrim (removeFence ['`', '`', '`'] 0
      (removeFence ['`', '`', '`', 'j', 's', 'o', 'n'] 0 (t.toList ++ ['\n', '`', '`', '`']))) =
    jsTrim (removeFence ['`', '`', '`'] 0
      (removeFence ['`', '`', '`', 'j', 's', 'o', 'n'] 0 t.toList))
  rcases removeFence_json_closing t.toList 0 (Nat.zero_le _) with h | h
  · rw [h]
    rcases removeFence_tick_closing
        (removeFence ['`', '`', '`', 'j', 's', 'o', 'n'] 0 t.toList) 0 (Nat.zero_le _) with
      h2 | h2
    · rw [h2]
    · rw [h2, jsTrim_append_ws '\n' (by decide)]
  · rw [h, removeFence_tick_ticks _ 0 (Nat.zero_le _)]

theorem cleanedText_of_no_fence (t : String) (h : ¬ HasFence t) :
    cleanedText t = trimmed t := by
  unfold cleanedText trimmed
  have hj : ¬ "```json".toList <:+: t.toList := by
    intro hi
    apply h
    have hb : "```".toList <:+: "```json".toList := ⟨[], ['j', 's', 'o', 'n'], rfl⟩
    exact hb.trans hi
  rw [removeFence_id_of_absent _ _ hj, removeFence_id_of_absent _ _ h]

/-- The second replacement leaves no run of three backticks behind. -/
theorem removeFence_tick_clean (l : List Char) :
    ∀ k : Nat, ¬ ['`', '`', '`'] <:+: removeFence ['`', '`', '`'] k l := by
  induction l with
  | nil =>
    intro k h
    have h0 : removeFence ['`', '`', '`'] k [] = [] := by
      cases k <;> rfl
    rw [h0] at h
    simp at h
  | cons c r ih =>
    intro k
    cases k with
    | succ k' =>
      rw [removeFence_succ_cons]
      exact ih k'
    | zero =>
      rw [removeFence_zero_cons]
      by_cases hp : List.isPrefixOf ['`', '`', '`'] (c :: r) = true
      · rw [if_pos hp]
        exact ih _
      · rw [if_neg hp]
        intro hi
        rcases List.infix_cons_iff.mp hi with hpre | hin
        · -- the run would begin at `c`: then `c :: r` begins with the run
          apply hp
          cases r with
          | nil =>
            have h0 : removeFence ['`', '`', '`'] 0 [] = [] := rfl
            rw [h0] at hpre
            have := hpre.length_le
            simp at this
          | cons d r2 =>
            by_cases hp2 : List.isPrefixOf ['`', '`', '`'] (d :: r2) = true
            · exfalso
              have hi2 : removeFence ['`', '`', '`'] 0 (d :: r2) =
                  removeFence ['`', '`', '`']
                    (2 + (if (r2.drop 2).head? = some '\n' then 1 else 0)) r2 := by
                rw [removeFence_zero_cons, if_pos hp2]
                rfl
              obtain ⟨t, ht⟩ := List.isPrefixOf_iff_prefix.mp hp2
              obtain ⟨u, hu⟩ := hpre
              simp only [List.cons_append, List.nil_append, List.cons.injEq] at ht hu
              obtain ⟨rfl, rfl⟩ := ht
              obtain ⟨rfl, _⟩ := hu
              apply hp
              simp [List.isPrefixOf]
            · have hi2 : removeFence ['`', '`', '`'] 0 (d :: r2) =
                  d :: removeFence ['`', '`', '`'] 0 r2 := by
                rw [removeFence_zero_cons, if_neg hp2]
              rw [hi2] at hpre
              cases r2 with
              | nil =>
                have h0 : removeFence ['`', '`', '`'] 0 [] = [] := rfl
                rw [h0] at hpre
                have := hpre.length_le
                simp at this
              | cons e r3 =>
                by_cases hp3 : List.isPrefixOf ['`', '`', '`'] (e :: r3) = true
                · obtain ⟨t, ht⟩ := List.isPrefixOf_iff_prefix.mp hp3
                  obtain ⟨u, hu⟩ := hpre
                  simp only [List.cons_append, List.nil_append, List.cons.injEq] at ht hu
                  obtain ⟨rfl, _⟩ := ht
                  obtain ⟨rfl, rfl, _⟩ := hu
                  simp [List.isPrefixOf]
                · have hi3 : removeFence ['`', '`', '`'] 0 (e :: r3) =
                      e :: removeFence ['`', '`', '`'] 0 r3 := by
                    rw [removeFence_zero_cons, if_neg hp3]
                  rw [hi3] at hpre
                  obtain ⟨u, hu⟩ := hpre
                  simp only [List.cons_append, List.nil_append, List.cons.injEq] at hu
                  obtain ⟨rfl, rfl, rfl, _⟩ := hu
                  simp [List.isPrefixOf]
        · exact ih 0 hin

/-- Trimming returns a contiguous part of the text. -/
theorem jsTrim_part (l : List Char) : jsTrim l <:+: l := by
  unfold jsTrim
  have h1 : ((l.dropWhile isJsWhiteSpace).reverse.dropWhile isJsWhiteSpace).reverse <+:
      l.dropWhile isJsWhiteSpace := by
    rw [← List.reverse_suffix, List.reverse_reverse]
    exact List.dropWhile_suffix _
  exact h1.isInfix.trans (List.dropWhile_suffix _).isInfix

/-- Dropping leading white space keeps a run that begins with another
character. -/
theorem dropWhile_keeps_run (p : List Char) (a : Char) (hp : p.head? = some a)
    (ha : isJsWhiteSpace a = false) (l : List Char) (h : p <:+: l) :
    p <:+: l.dropWhile isJsWhiteSpace := by
  induction l with
  | nil => simpa using h
  | cons c r ih =>
    by_cases hc : isJsWhiteSpace c = true
    · rw [List.dropWhile_cons_of_pos hc]
      rcases List.infix_cons_iff.mp h with hpre | hin
      · exfalso
        obtain ⟨u, hu⟩ := hpre
        cases p with
        | nil => simp at hp
        | cons b p2 =>
          simp only [List.cons_append, List.cons.injEq] at hu
          simp only [List.head?_cons, Option.some.injEq] at hp
          rw [← hu.1, hp, ha] at hc
          exact Bool.noConfusion hc
      · exact ih hin
    · rw [List.dropWhile_cons_of_neg hc]
      exact h

/-- Trimming keeps every run of three backticks. -/
theorem jsTrim_keeps_ticks (l : List Char) (h : ['`', '`', '`'] <:+: l) :
    ['`', '`', '`'] <:+: jsTrim l := by
  unfold jsTrim
  have h1 := dropWhile_keeps_run ['`', '`', '`'] '`' rfl (by decide) l h
  have h2 : ['`', '`', '`'] <:+: (l.dropWhile isJsWhiteSpace).reverse := by
    have := List.reverse_infix.mpr h1
    simpa using this
  have h3 := dropWhile_keeps_run ['`', '`', '`'] '`' rfl (by decide) _ h2
  have := List.reverse_infix.mpr h3
  simpa using this

theorem cleanedText_clean (t : String) : ¬ HasFence (cleanedText t) := by
  unfold HasFence cleanedText
  intro h
  exact removeFence_tick_clean _ 0 (h.trans (jsTrim_part _))

/-- C19 (as the code has it): for every text `t`, normalising `t` wrapped in
a code fence gives the value that normalising bare `t` gives; that value holds
no run of three backticks, so every such run inside `t` is removed as well;
and it is `t` with leading and trailing white space trimmed exactly when `t`
holds no run of three backticks. -/
theorem fence_is_transparent (t : String) :
    cleanedText (fenced t) = cleanedText t ∧
    ¬ HasFence (cleanedText (fenced t)) ∧
    (cleanedText (fenced t) = trimmed t ↔ ¬ HasFence t) ∧
    (¬ HasFence t → cleanedText (fenced t) = trimmed t ∧ cleanedText t = trimmed t) := by
  have hno : ¬ HasFence t → cleanedText (fenced t) = trimmed t := by
    intro h
    rw [cleanedText_fenced, cleanedText_of_no_fence t h]
  refine ⟨cleanedText_fenced t, cleanedText_clean _, ⟨?_, hno⟩,
    fun h => ⟨hno h, cleanedText_of_no_fence t h⟩⟩
  intro heq hf
  apply cleanedText_clean (fenced t)
  rw [heq]
  exact jsTrim_keeps_ticks _ hf

/-- Witness of C19 as amended: a JSON text with white space around it. -/
theorem fence_is_transparent_witness :
    ¬ HasFence "  [\"a\", \"b\"] \n" ∧
    cleanedText (fenced "  [\"a\", \"b\"] \n") = "[\"a\", \"b\"]" ∧
    trimmed "  [\"a\", \"b\"] \n" = "[\"a\", \"b\"]" ∧
    cleanedText (fenced "  [\"a\", \"b\"] \n") = trimmed "  [\"a\", \"b\"] \n" :=
  ⟨by unfold HasFence; decide, by decide, by decide,
   ((fence_is_transparent "  [\"a\", \"b\"] \n").2.2.2 (by unfold HasFence; decide)).1⟩

/-- C19 fails as stated: the text `["```"]` holds three backticks inside a
string; normalising it within a fence removes them and yields `[""]`, which is
not the trimmed text. -/
theorem fence_interior_counterexample :
    cleanedText (fenced "[\"```\"]") = "[\"\"]" ∧
    trimmed "[\"```\"]" = "[\"```\"]" ∧
    cleanedText (fenced "[\"```\"]") ≠ trimmed "[\"```\"]" := by
  decide

theorem listed_length (rt : Runtime) (candidates : List Candidate)
    (ms : List (Option MatchCandidate)) :
    ∀ listed, inReplyOrder rt candidates ms = some listed →
      listed.length = ms.countP (contributes rt candidates) := by
  induction ms with
  | nil =>
    intro listed h
    simp only [inReplyOrder, Option.some.injEq] at h
    subst h
    rfl
  | cons m rest ih =>
    intro listed h
    cases hc : contribution rt candidates m with
    | none => rw [inReplyOrder_cons_throw _ _ _ _ hc] at h; cases h
    | some o =>
      cases o with
      | none =>
        rw [inReplyOrder_cons_skip _ _ _ _ hc] at h
        have hf : contributes rt candidates m = false := by simp [contributes, hc]
        rw [List.countP_cons_of_neg _ _ (by simp [hf])]
        exact ih listed h
      | some e =>
        rw [inReplyOrder_cons_keep _ _ _ _ e hc] at h
        cases hr : inReplyOrder rt candidates rest with
        | none => rw [hr] at h; cases h
        | some lr =>
          rw [hr] at h
          simp only [Option.map_some', Option.some.injEq] at h
          subst h
          have ht : contributes rt candidates m = true := by simp [contributes, hc]
          rw [List.countP_cons_of_pos _ _ ht, List.length_cons, ih lr hr]

/-- An element that qualifies yields an entry, unless the conversion of a
value throws. -/
theorem contributes_of_qualifies (rt : Runtime) (candidates : List Candidate)
    (m : Option MatchCandidate) (hq : qualifies rt candidates m = true) :
    contributes rt candidates m = true := by
  cases m with
  | none => simp [qualifies] at hq
  | some r =>
    unfold qualifies at hq
    rw [Bool.and_eq_true] at hq
    obtain ⟨hs, hr⟩ := hq
    cases hx : toNumber rt r.score with
    | none => rw [hx] at hs; cases hs
    | some x =>
      rw [hx] at hs
      simp only at hs
      obtain ⟨c, hc⟩ := Option.isSome_iff_exists.mp hr
      have hl : lookupCandidate rt candidates r.candidateIndex =
          some (some (Looked.candidate c)) := by
        unfold resolvedCandidate at hc
        simp only at hc
        split at hc
        · rename_i c' hl'
          cases hc
          exact hl'
        · cases hc
      have hne : r.candidateIndex ≠ JsVal.undefined := by
        intro hu
        rw [hu] at hl
        exact lookupKey_undefined_not_candidate rt candidates c (Option.some.inj hl)
      have hke : keepEntry rt r = some true := by
        unfold keepEntry
        rw [hx]
        simp [hs, hne]
      simp [contributes, contribution, hke, enrich, hl, Looked.truthy, hx]

theorem contributing_map (rt : Runtime) (candidates : List Candidate)
    (ms : List (Option MatchCandidate)) :
    ∀ listed, inReplyOrder rt candidates ms = some listed →
      (ms.filter (contributes rt candidates)).map (contribution rt candidates) =
        listed.map (fun e => some (some e)) := by
  induction ms with
  | nil =>
    intro listed h
    simp only [inReplyOrder, Option.some.injEq] at h
    subst h
    rfl
  | cons m rest ih =>
    intro listed h
    cases hc : contribution rt candidates m with
    | none => rw [inReplyOrder_cons_throw _ _ _ _ hc] at h; cases h
    | some o =>
      cases o with
      | none =>
        rw [inReplyOrder_cons_skip _ _ _ _ hc] at h
        have hf : contributes rt candidates m = false := by simp [contributes, hc]
        rw [List.filter_cons_of_neg (by simp [hf])]
        exact ih listed h
      | some e =>
        rw [inReplyOrder_cons_keep _ _ _ _ e hc] at h
        cases hr : inReplyOrder rt candidates rest with
        | none => rw [hr] at h; cases h
        | some lr =>
          rw [hr] at h
          simp only [Option.map_some', Option.some.injEq] at h
          subst h
          have ht : contributes rt candidates m = true := by simp [contributes, hc]
          rw [List.filter_cons_of_pos ht, List.map_cons, List.map_cons, ih lr hr, hc]

/-- C20 fails in the code for an index that is no number. What holds: the
output has exactly `min(20, k)` entries, with `k` the number of reply elements
that yield an entry; together with a list of left-out entries it is a
rearrangement of the entries those elements yield, one for each; every entry
left out has a score no greater than that of every entry retained; every
qualifying element yields an entry; and when no other element does, `k` is the
number `q` of qualifying elements. What fails: the element with index `length`
and score 90 does not qualify, so `q = 0`, yet it yields an entry and the output
has one entry. -/
theorem output_is_top_twenty :
    (∀ (rt : Runtime) (candidates : List Candidate) (ms : List (Option MatchCandidate))
        (out : List EnrichedMatch),
      enrichedMatches rt candidates ms = some out →
      out.length = min 20 (ms.countP (contributes rt candidates)) ∧
      ∃ dropped : List EnrichedMatch,
        ((out ++ dropped).map (fun e => some (some e))).Perm
          ((ms.filter (contributes rt candidates)).map (contribution rt candidates)) ∧
        dropped.length = ms.countP (contributes rt candidates) - 20 ∧
        ∀ e ∈ out, ∀ d ∈ dropped, ScoreGe e d) ∧
    (∀ (rt : Runtime) (candidates : List Candidate) (m : Option MatchCandidate),
      qualifies rt candidates m = true → contributes rt candidates m = true) ∧
    (∀ (rt : Runtime) (candidates : List Candidate) (ms : List (Option MatchCandidate))
        (out : List EnrichedMatch),
      enrichedMatches rt candidates ms = some out →
      (∀ m ∈ ms, contributes rt candidates m = true → qualifies rt candidates m = true) →
      out.length = min 20 (ms.countP (qualifies rt candidates))) ∧
    (∀ rt : Runtime,
      [some mLength90].countP (qualifies rt samplePool) = 0 ∧
      enrichedMatches rt samplePool [some mLength90] = some [entryOfLength 90]) := by
  have main : ∀ (rt : Runtime) (candidates : List Candidate)
      (ms : List (Option MatchCandidate)) (out : List EnrichedMatch),
      enrichedMatches rt candidates ms = some out →
      out.length = min 20 (ms.countP (contributes rt candidates)) ∧
      ∃ dropped : List EnrichedMatch,
        ((out ++ dropped).map (fun e => some (some e))).Perm
          ((ms.filter (contributes rt candidates)).map (contribution rt candidates)) ∧
        dropped.length = ms.countP (contributes rt candidates) - 20 ∧
        ∀ e ∈ out, ∀ d ∈ dropped, ScoreGe e d := by
    intro rt candidates ms out h
    obtain ⟨listed, hl, rfl⟩ := enrichedMatches_some h
    have hlen := listed_length rt candidates ms listed hl
    have hsort : (sortMatches listed).length = ms.countP (contributes rt candidates) := by
      rw [(sortMatches_perm _).length_eq, hlen]
    refine ⟨by rw [List.length_take, hsort], (sortMatches listed).drop 20, ?_, ?_, ?_⟩
    · rw [List.take_append_drop, contributing_map rt candidates ms listed hl]
      exact (sortMatches_perm _).map _
    · rw [List.length_drop, hsort]
    · intro e he d hd
      exact List.Sorted.rel_of_mem_take_of_mem_drop (listed_sorted hl) he hd
  refine ⟨main, contributes_of_qualifies, ?_, ?_⟩
  · intro rt candidates ms out h hall
    rw [(main rt candidates ms out h).1]
    congr 1
    apply List.countP_congr
    intro m hm
    constructor
    · exact hall m hm
    · exact contributes_of_qualifies rt candidates m
  · intro rt
    constructor
    · with_unfolding_all rfl
    · with_unfolding_all rfl

/-- Witness of C20 for the part that holds: twenty-two qualifying elements with
scores 51 to 72; the output keeps twenty. -/
theorem output_is_top_twenty_witness :
    (manyEntries.countP (qualifies sampleRuntime samplePool) = 22) ∧
    (∃ out, enrichedMatches sampleRuntime samplePool manyEntries = some out ∧
      out.length = min 20 22) := by
  have hcount : manyEntries.countP (qualifies sampleRuntime samplePool) = 22 := by
    with_unfolding_all decide
  have hsome : (enrichedMatches sampleRuntime samplePool manyEntries).isSome = true := by
    with_unfolding_all decide
  obtain ⟨out, hout⟩ := Option.isSome_iff_exists.mp hsome
  refine ⟨hcount, out, hout, ?_⟩
  have h := output_is_top_twenty.2.2.1 sampleRuntime samplePool manyEntries out hout
    (by
      intro m hm _
      have hall : ∀ m ∈ manyEntries, qualifies sampleRuntime samplePool m = true := by
        with_unfolding_all decide
      exact hall m hm)
  rw [hcount] at h
  exact h

end StudyBuddy
